import Mathlib

/-!
# Verification of the scraper orchestration engine

A shallow embedding, in Lean 4, of the core of the `gjkorne/scraper`
repository: the generic extraction fallback (`utils/html.ts`), the
validation/cleaning pipeline and `BaseScraper.scrape`
(`scrapers/BaseScraper.ts`), the in-memory sliding-window rate limiter
(`utils/rate-limit.ts`), the retrying transport (`utils/fetch.ts`), the
orchestrator-level generic retry (`index.new.ts`), and the SQL cache
functions (`migrations/20250412172000_scraper_cache.sql`).

JavaScript strings are modelled as Lean `String`s, JavaScript
`String.prototype.trim` / `split` / whitespace collapsing as explicit
list-of-character functions, machine time (`Date.now()`, timestamptz)
as `Int` milliseconds, and effectful code as explicit state passing.
-/

deriving instance DecidableEq for Except

namespace Scraper

/-! ## JavaScript string primitives -/

/-- Characters treated as whitespace by `trim` / `\s`. -/
def jsWs (c : Char) : Bool := c.isWhitespace

/-- Model of `String.prototype.trim` on the character list: drop leading
and trailing whitespace. -/
def trimChars (l : List Char) : List Char :=
  ((l.dropWhile jsWs).reverse.dropWhile jsWs).reverse

/-- Model of `s.trim()`. -/
def jsTrim (s : String) : String := ⟨trimChars s.data⟩

/-- `s || t` for JavaScript strings: the empty string is the only falsy one. -/
def jsOr (a b : String) : String := if a = "" then b else a

/-- Split a character list at every separator character (JS
`String.prototype.split` with a single-character class). -/
def splitChars (p : Char → Bool) : List Char → List (List Char)
  | [] => [[]]
  | c :: cs =>
    match splitChars p cs with
    | [] => [[]]
    | r :: rs => if p c then [] :: r :: rs else (c :: r) :: rs

/-- `s.split(sep)` for a one-character separator / character class. -/
def jsSplit (p : Char → Bool) (s : String) : List String :=
  (splitChars p s.data).map (fun l => ⟨l⟩)

/-- Collapse runs of whitespace into single spaces
(`replace(/\s+/g, ' ')`). The boolean records whether the previous
character was whitespace. -/
def collapseWsChars : List Char → Bool → List Char
  | [], _ => []
  | c :: cs, prevWs =>
    if jsWs c then
      if prevWs then collapseWsChars cs true
      else ' ' :: collapseWsChars cs true
    else c :: collapseWsChars cs false

/-- `s.replace(/\s+/g, ' ')`. -/
def jsCollapseWs (s : String) : String := ⟨collapseWsChars s.data false⟩

/-- `s.replace(/\s+/g, ' ').trim()`, the per-field normalization used by
`cleanJobData` (`utils/html.ts`) and the `index.ts` handler. -/
def cleanField (s : String) : String := jsTrim (jsCollapseWs s)

/-- Prefix test on character lists. -/
def isPrefixAt : List Char → List Char → Bool
  | [], _ => true
  | _ :: _, [] => false
  | c :: cs, d :: ds => c = d && isPrefixAt cs ds

/-- Substring containment on character lists (JS `String.prototype.includes`). -/
def containsSubChars (needle : List Char) : List Char → Bool
  | [] => isPrefixAt needle []
  | d :: ds => isPrefixAt needle (d :: ds) || containsSubChars needle ds

/-- `hay.includes(needle)`. -/
def jsIncludes (hay needle : String) : Bool := containsSubChars needle.data hay.data

/-- `s.toLowerCase()` (ASCII case folding suffices for the literals used). -/
def jsToLower (s : String) : String := ⟨s.data.map Char.toLower⟩

/-- `s.substring(0, n)`. -/
def jsTake (s : String) (n : Nat) : String := ⟨s.data.take n⟩

/-! ## Data model: `ScrapedData` (`types/index.ts`)

Only the three required fields plus the metadata the claims mention are
modelled; the optional fields (location, salary, ...) play no role in any
claim. -/

structure ScrapedData where
  title : String
  company : String
  description : String
  url : String
  scraper : String
  deriving Repr, DecidableEq

/-! ## The parsed document

`parseHtml` (`utils/html.ts`) loads the HTML with cheerio and strips
`script`/`style`/hidden nodes (`cleanDom`).  The resulting DOM is
abstracted by exactly the query results `extractJobData` consults, plus
one observation about the *raw* HTML: the organization name carried by a
job-posting JSON-LD `<script type="application/ld+json">` block, if any
(as `extractJsonLd`/`extractCompany` in the same file would report it
before `cleanDom` removes all script tags).  `extractJobData` itself
never reads it. -/

structure Doc where
  /-- `$('h1').first().text()` (empty when there is no `h1`). -/
  h1First : String
  /-- `$('title').text()`. -/
  titleTag : String
  /-- texts of `$('.company, .employer, [itemprop="hiringOrganization"], [data-company]')` in document order. -/
  companySelTexts : List String
  /-- texts of `$('.description, .job-description, [itemprop="description"]')` in document order. -/
  descSelTexts : List String
  /-- texts of `$('div, section, article')` in document order. -/
  containerTexts : List String
  /-- organization name supplied by a JSON-LD job-posting block of the raw HTML, if any. -/
  jsonLdCompany : Option String
  deriving Repr, DecidableEq

/-! ## Generic extraction: `extractJobData` (`utils/html.ts`) -/

/-- The `$(sel).each(el => { if (!company) company = $(el).text().trim(); })`
loop: the trimmed text of the first element whose trimmed text is
non-empty, else the empty string. -/
def firstNonEmptyTrim : List String → String
  | [] => ""
  | t :: ts => if jsTrim t = "" then firstNonEmptyTrim ts else jsTrim t

/-- The largest-text-container fallback for the description: the trimmed
text of the first `div`/`section`/`article` of maximal length among those
longer than 200 characters (strictly increasing scan, as in the source). -/
def largestContainerText (l : List String) : String :=
  (l.foldl
    (fun acc t =>
      let tt := jsTrim t
      if tt.length > acc.1 ∧ tt.length > 200 then (tt.length, tt) else acc)
    ((0 : Nat), "")).2

/-- `extractJobData($, url)` from `utils/html.ts` (the generic fallback
extractor used by `BaseScraper` and `GenericScraper`).  The `catch`
branch of the source (returning all-placeholder data) is unreachable in
this pure model and is not represented. -/
def extractJobData (d : Doc) (url : String) : ScrapedData :=
  let title :=
    jsOr d.h1First
      (jsOr ((jsSplit (fun c => c = '|') d.titleTag).headD "")
        (jsOr ((jsSplit (fun c => c = '-') d.titleTag).headD "") "Unknown Position"))
  let company0 := firstNonEmptyTrim d.companySelTexts
  let company1 :=
    if company0 = "" then
      let titleParts := jsSplit (fun c => c = '|' ∨ c = '-') d.titleTag
      if titleParts.length > 1 then jsTrim (titleParts.getD 1 "") else company0
    else company0
  let company := if company1 = "" then "Unknown Company" else company1
  let description0 := firstNonEmptyTrim d.descSelTexts
  let description :=
    if description0 = "" then largestContainerText d.containerTexts else description0
  { title := jsTrim title
    company := company
    description := description
    url := url
    scraper := "Generic" }

/-! ## Validation and cleaning (`utils/html.ts`) -/

/-- `isValidHtml(html)` from `utils/fetch.ts`: the page looks like HTML. -/
def isValidHtml (html : String) : Bool :=
  jsIncludes (jsToLower html) "<!doctype html" || jsIncludes (jsToLower html) "<html"

/-- The structured extraction failure built by `createExtractionError`
(`utils/html.ts`): the URL, the missing required fields in order, the
`isValidHtml` verdict on the payload, and a bounded HTML preview.  (The
source additionally strips `script`/`style` tags from the preview with a
regex before truncating; the preview is diagnostic only.) -/
structure ExtractError where
  url : String
  missingFields : List String
  pageValidHtml : Bool
  preview : String
  deriving Repr, DecidableEq

/-- `createExtractionError(url, html, missingFields)`. -/
def createExtractionError (url html : String) (missingFields : List String) : ExtractError :=
  { url := url
    missingFields := missingFields
    pageValidHtml := isValidHtml html
    preview := jsTake html 1000 ++ "..." }

/-- `validateJobData(data, url, html)`: collect the required fields that
are (JS-)falsy, i.e. empty, and fail when any is missing. -/
def validateJobData (data : ScrapedData) (url html : String) :
    Except ExtractError ScrapedData :=
  let missingFields :=
    (if data.title = "" then ["job title"] else []) ++
    (if data.company = "" then ["company name"] else []) ++
    (if data.description = "" then ["job description"] else [])
  if missingFields.length > 0 then .error (createExtractionError url html missingFields)
  else .ok data

/-- `cleanJobData(data)`: collapse whitespace runs and trim the three
textual fields; `url` and `scraper` are kept. -/
def cleanJobData (data : ScrapedData) : ScrapedData :=
  { data with
    title := cleanField data.title
    company := cleanField data.company
    description := cleanField data.description }

/-! ## Transport errors (`utils/fetch.ts`) -/

/-- The structured `ScraperError` object (`types/index.ts`). -/
structure ScraperError where
  code : String
  message : String
  technicalDetails : String
  suggestion : String
  deriving Repr, DecidableEq

/-! ## `BaseScraper.scrape` (`scrapers/BaseScraper.ts`)

The method is effectful: it consults the cache, waits on the global rate
limiter, fetches, parses, extracts, validates, cleans and writes back to
the cache.  It is embedded as a pure function of the observations those
effects produce:

* `cached` — what `scraperCache.get(url, ...)` returned (`none` for a miss);
* `fetched` — the outcome of `fetchWithRetry` plus parsing: the raw HTML,
  the parsed/cleaned document, and the HTTP status;
* `specificData` — the subclass's `extractData($, url)` result on that
  document.

The rate-limiter wait and the telemetry calls do not affect the returned
data or the cache writes and are not represented here (the limiter is
modelled separately below).  Its outputs are the returned value (or
error) and the list of records passed to `scraperCache.set`. -/

/-- The fields of a cache row that `scrape` consumes. -/
structure CacheEntryJs where
  content : ScrapedData
  is_expired : Bool
  cache_hit_count : Int
  deriving Repr, DecidableEq

/-- A successful fetch, after `response.text()` and `parseHtml`. -/
structure FetchedPage where
  html : String
  doc : Doc
  status : Int
  deriving Repr, DecidableEq

inductive ScrapeError where
  /-- `throw new Error(\x7bScraper $\x7bname\x7d cannot handle URL ...)`. -/
  | cannotHandle (name url : String)
  /-- `fetchWithRetry` exhausted its budget. -/
  | fetchFailed (e : ScraperError)
  /-- `validateJobData` threw. -/
  | extractionFailed (e : ExtractError)
  deriving Repr, DecidableEq

structure ScrapeResult where
  result : Except ScrapeError ScrapedData
  /-- records passed to `scraperCache.set`, in order. -/
  cacheWrites : List ScrapedData
  deriving Repr, DecidableEq

/-- Step 1 of `scrape`: the cache entry served, if any — the lookup runs
only when the cache is not bypassed and is ready, and a returned entry is
served only when it is not expired. -/
def cacheHitEntry (bypass cacheReady : Bool) (cached : Option CacheEntryJs) :
    Option CacheEntryJs :=
  if bypass || !cacheReady then none
  else
    match cached with
    | some e => if e.is_expired then none else some e
    | none => none

/-- `BaseScraper.scrape(url, options)`. -/
def scrape (name : String) (canHandleUrl bypass cacheReady : Bool)
    (cached : Option CacheEntryJs) (fetched : Except ScraperError FetchedPage)
    (specificData : ScrapedData) (url : String) : ScrapeResult :=
  if !canHandleUrl then ⟨.error (.cannotHandle name url), []⟩
  else
    match cacheHitEntry bypass cacheReady cached with
    | some e => ⟨.ok e.content, []⟩
    | none =>
      match fetched with
      | .error fe => ⟨.error (.fetchFailed fe), []⟩
      | .ok page =>
        let data0 := specificData
        -- "If scraper-specific extraction fails, fall back to generic extraction"
        let data1 :=
          if data0.title = "" || data0.company = "" || data0.description = "" then
            extractJobData page.doc url
          else data0
        match validateJobData data1 url page.html with
        | .error ee => ⟨.error (.extractionFailed ee), []⟩
        | .ok data2 =>
          let data3 := cleanJobData data2
          let data4 := { data3 with scraper := name, url := url }
          ⟨.ok data4, if !bypass && cacheReady then [data4] else []⟩

/-! ## Rate limiter (`utils/rate-limit.ts`)

Time is `Int` milliseconds; `Date.now()` is passed explicitly.  A URL is
abstracted by its parse result: `none` when `new URL(url)` throws, else
the hostname.  The timestamp map (`Map<string, number[]>`) is a total
function defaulting to `[]`, matching `map.get(key) || []`. -/

structure RateLimitOptions where
  requestsPerMinute : Nat
  windowMs : Int
  perDomain : Bool
  deriving Repr, DecidableEq

/-- `DEFAULT_RATE_LIMIT_OPTIONS`: 10 requests / 60 000 ms, per-domain. -/
def DEFAULT_RATE_LIMIT_OPTIONS : RateLimitOptions :=
  { requestsPerMinute := 10, windowMs := 60000, perDomain := true }

/-- The observable outcome of `new URL(url)`: parse failure, or the hostname. -/
structure UrlModel where
  hostname : Option String
  deriving Repr, DecidableEq

structure RateLimiter where
  opts : RateLimitOptions
  requestTimestamps : String → List Int

/-- A fresh limiter: empty timestamp map. -/
def RateLimiter.mk0 (opts : RateLimitOptions) : RateLimiter :=
  { opts := opts, requestTimestamps := fun _ => [] }

/-- `getDomainKey(url)`: hostname when `perDomain`, else `'global'`;
`'global'` as well when URL parsing fails. -/
def getDomainKey (opts : RateLimitOptions) (url : UrlModel) : String :=
  match url.hostname with
  | some h => if opts.perDomain then h else "global"
  | none => "global"

/-- The pruning predicate: `now - timestamp < windowMs`. -/
def inWindow (now windowMs t : Int) : Bool := now - t < windowMs

/-- `isRateLimited(url)` at time `now`: prune the key's window, deny
without recording when the remaining count reaches the limit, otherwise
append `now` and admit.  Returns (denied?, new state). -/
def isRateLimited (rl : RateLimiter) (url : UrlModel) (now : Int) :
    Bool × RateLimiter :=
  let key := getDomainKey rl.opts url
  let timestamps := (rl.requestTimestamps key).filter (inWindow now rl.opts.windowMs)
  if timestamps.length ≥ rl.opts.requestsPerMinute then
    (true, rl)
  else
    (false,
      { rl with
        requestTimestamps := fun k =>
          if k = key then timestamps ++ [now] else rl.requestTimestamps k })

/-- The ascending sort `[...timestamps].sort((a, b) => a - b)`. -/
def sortAsc (l : List Int) : List Int := List.insertionSort (· ≤ ·) l

/-- `getTimeUntilReset(url)` at time `now`.  Works on the *raw* stored
list (no pruning): 0 with no history or under the limit, else the oldest
stored timestamp plus `windowMs` minus `now`, floored at 0. -/
def getTimeUntilReset (rl : RateLimiter) (url : UrlModel) (now : Int) : Int :=
  let key := getDomainKey rl.opts url
  let timestamps := rl.requestTimestamps key
  if timestamps.length = 0 then 0
  else if timestamps.length < rl.opts.requestsPerMinute then 0
  else
    let oldestTimestamp := (sortAsc timestamps).headD 0
    max 0 (oldestTimestamp + rl.opts.windowMs - now)

/-- `waitForRateLimit(url)` at time `now`: one `isRateLimited` decision;
when denied, a single sleep of `getTimeUntilReset` (no re-check loop).
Returns (milliseconds slept, new state). -/
def waitForRateLimit (rl : RateLimiter) (url : UrlModel) (now : Int) :
    Int × RateLimiter :=
  match isRateLimited rl url now with
  | (true, rl') =>
    let waitTime := getTimeUntilReset rl' url now
    (if waitTime > 0 then waitTime else 0, rl')
  | (false, rl') => (0, rl')

/-- Run a sequence of `isRateLimited` calls (url, time), collecting the
results in order. -/
def runCalls (rl : RateLimiter) : List (UrlModel × Int) → List Bool × RateLimiter
  | [] => ([], rl)
  | (u, t) :: rest =>
    let (b, rl') := isRateLimited rl u t
    let (bs, rl'') := runCalls rl' rest
    (b :: bs, rl'')

/-! ## Transport: `fetchWithRetry` (`utils/fetch.ts`)

The network is an oracle giving the outcome of each `fetch` call in
order (0-indexed): either the promise rejects with an error message, or a
response with some status arrives.  A non-2xx response is turned into
`Failed to fetch page (Status: s)` and retried like a rejection. -/

inductive AttemptOutcome where
  /-- `fetch` resolved with this status code. -/
  | response (status : Nat)
  /-- `fetch` rejected with this error message. -/
  | netError (msg : String)
  deriving Repr, DecidableEq

/-- `response.ok`: status in [200, 300). -/
def responseOk (status : Nat) : Bool := 200 ≤ status && status < 300

/-- The error message an attempt produces, or `none` on success. -/
def attemptFailureMsg : AttemptOutcome → Option String
  | .response s =>
    if responseOk s then none
    else some ("Failed to fetch page (Status: " ++ toString s ++ ")")
  | .netError m => some m

/-- `DEFAULT_FETCH_OPTIONS`: retries = 3, retryDelay = 1000 ms. -/
def DEFAULT_RETRIES : Nat := 3
def DEFAULT_RETRY_DELAY : Int := 1000

structure FetchResult where
  /-- the returned response status, or the structured error. -/
  outcome : Except ScraperError Nat
  /-- backoff sleeps performed, in order (ms). -/
  delays : List Int
  /-- number of `fetch` calls made. -/
  attemptsMade : Nat
  deriving Repr, DecidableEq

/-- The structured error thrown after the budget is exhausted. -/
def fetchFailedError (retries : Nat) (lastError : Option String) : ScraperError :=
  { code := "FETCH_FAILED"
    message := "Failed to fetch the job posting after " ++ toString retries ++ " attempts"
    technicalDetails := lastError.getD "Unknown error"
    suggestion := "The site may be blocking automated requests. Try accessing the page directly in your browser." }

/-- The `while (attemptsLeft > 0)` loop of `fetchWithRetry`.  On a
failure with attempts remaining it sleeps
`retryDelay * (retries - attemptsLeft + 1)` (the source's progressive
backoff, with `attemptsLeft` already decremented). -/
def fetchLoop (oracle : Nat → AttemptOutcome) (retries : Nat) (retryDelay : Int) :
    Nat → Option String → List Int → Nat → FetchResult
  | 0, lastError, delays, made => ⟨.error (fetchFailedError retries lastError), delays, made⟩
  | n + 1, _, delays, made =>
    match oracle made with
    | .response s =>
      if responseOk s then ⟨.ok s, delays, made + 1⟩
      else
        fetchLoop oracle retries retryDelay n
          (some ("Failed to fetch page (Status: " ++ toString s ++ ")"))
          (if n > 0 then delays ++ [retryDelay * (retries - n + 1)] else delays) (made + 1)
    | .netError m =>
      fetchLoop oracle retries retryDelay n (some m)
        (if n > 0 then delays ++ [retryDelay * (retries - n + 1)] else delays) (made + 1)

/-- `fetchWithRetry(url, options)` with the retry budget already merged. -/
def fetchWithRetry (oracle : Nat → AttemptOutcome) (retries : Nat) (retryDelay : Int) :
    FetchResult :=
  fetchLoop oracle retries retryDelay retries none [] 0

/-! ## Orchestrator-level generic retry (`index.new.ts`, `index.ts`)

`scrapeJobPosting(url)` validates the URL, rejects Indeed URLs, selects a
scraper via the factory, and on a specific-scraper failure retries once
with the generic scraper.  It is embedded as a function of the selected
scraper (name and whether it is the generic one) and of the outcomes the
two `scrape` calls would produce; errors are carried as their messages.
The second component of the result lists the scrapers invoked, in order. -/

/-- Message of the fast-fail for malformed URLs. -/
def invalidUrlMessage : String :=
  "Invalid URL format. Please provide a valid job posting URL."

/-- Message of the Indeed short-circuit (`JSON.stringify` of the
`UNSUPPORTED_PLATFORM` object; the exact JSON text is not load-bearing). -/
def indeedErrorMessage : String :=
  "Indeed URLs are not supported (UNSUPPORTED_PLATFORM)"

def scrapeJobPosting (urlValid isIndeedUrl : Bool) (scraperName : String)
    (scraperIsGeneric : Bool) (specificOutcome genericOutcome : Except String ScrapedData) :
    Except String ScrapedData × List String :=
  if !urlValid then (.error invalidUrlMessage, [])
  else if isIndeedUrl then (.error indeedErrorMessage, [])
  else
    match specificOutcome with
    | .ok jobData => (.ok (cleanJobData jobData), [scraperName])
    | .error e =>
      if !scraperIsGeneric then
        match genericOutcome with
        | .ok jobData => (.ok (cleanJobData jobData), [scraperName, "Generic"])
        | .error genericError =>
          (.error (e ++ "\n\nGeneric scraper also failed: " ++ genericError),
           [scraperName, "Generic"])
      else (.error e, [scraperName])

/-! ## SQL cache (`migrations/20250412172000_scraper_cache.sql`)

The `scraper_cache` table is a list of rows; `now()` is an `Int`
(milliseconds, so `p_ttl_hours || ' hours'` becomes
`p_ttl_hours * 3600000`); JSONB values are abstracted as `String`; uuids
as `Nat` (a fresh one is passed to the upsert).  The
`scraper_cache_updated_at` trigger fires on *every* UPDATE, including the
hit-count increment. -/

structure CacheRow where
  id : Nat
  url : String
  content : String
  scraper_name : String
  status_code : Int
  headers : String
  created_at : Int
  updated_at : Int
  expires_at : Int
  etag : Option String
  last_modified : Option String
  cache_hit_count : Int
  deriving Repr, DecidableEq

def hoursToMs (h : Int) : Int := h * 3600000

/-- The `UPDATE scraper_cache SET ...` of `upsert_scraper_cache`,
including the `updated_at` trigger. -/
def upsertUpdateRow (now : Int) (p_content p_scraper_name : String)
    (p_status_code : Int) (p_headers : String) (v_expires_at : Int)
    (p_etag p_last_modified : Option String) (r : CacheRow) : CacheRow :=
  { r with
    content := p_content
    scraper_name := p_scraper_name
    status_code := p_status_code
    headers := p_headers
    expires_at := v_expires_at
    etag := p_etag
    last_modified := p_last_modified
    cache_hit_count := 0
    updated_at := now }

/-- `upsert_scraper_cache(...)`: update the row with the given url if it
exists (the trigger stamps `updated_at`), else insert a fresh row
(defaults: `created_at = updated_at = now()`, `cache_hit_count = 0`).
Returns the new table and the returned uuid. -/
def upsert_scraper_cache (db : List CacheRow) (now : Int) (freshId : Nat)
    (p_url p_content p_scraper_name : String) (p_status_code : Int)
    (p_headers : String) (p_ttl_hours : Int)
    (p_etag p_last_modified : Option String) : List CacheRow × Nat :=
  let v_expires_at := now + hoursToMs p_ttl_hours
  if db.any (fun r => r.url = p_url) then
    ((db.map fun r =>
        if r.url = p_url then
          upsertUpdateRow now p_content p_scraper_name p_status_code p_headers
            v_expires_at p_etag p_last_modified r
        else r),
     ((db.find? (fun r => r.url = p_url)).map (·.id)).getD freshId)
  else
    (db ++
      [{ id := freshId
         url := p_url
         content := p_content
         scraper_name := p_scraper_name
         status_code := p_status_code
         headers := p_headers
         created_at := now
         updated_at := now
         expires_at := v_expires_at
         etag := p_etag
         last_modified := p_last_modified
         cache_hit_count := 0 }],
     freshId)

/-- A row as returned by `get_scraper_cache`, with the computed
`is_expired` column. -/
structure CacheReadRow where
  row : CacheRow
  is_expired : Bool
  deriving Repr, DecidableEq

/-- `get_scraper_cache(p_url, p_update_hit_count)`: return every row with
the url (with `is_expired := expires_at < now()`), then, when requested
and a row exists, increment its hit count (the trigger stamps
`updated_at`).  Returns the result set and the new table. -/
def get_scraper_cache (db : List CacheRow) (now : Int) (p_url : String)
    (p_update_hit_count : Bool) : List CacheReadRow × List CacheRow :=
  let res := (db.filter (fun r => r.url = p_url)).map
    (fun r => ⟨r, decide (r.expires_at < now)⟩)
  let db' :=
    if p_update_hit_count && db.any (fun r => r.url = p_url) then
      db.map fun r =>
        if r.url = p_url then
          { r with cache_hit_count := r.cache_hit_count + 1, updated_at := now }
        else r
    else db
  (res, db')

/-- The rows of the table holding a given url. -/
def rowsFor (db : List CacheRow) (u : String) : List CacheRow :=
  db.filter (fun r => r.url = u)

/-- Table well-formedness: the UNIQUE constraint on `url`. -/
def UrlsUnique (db : List CacheRow) : Prop :=
  ∀ u : String, (rowsFor db u).length ≤ 1

/-! ## Auxiliary notions used by the theorems -/

/-- The property of a string field that survives `cleanField`: when it is
non-empty it contains a non-whitespace character.  Every extractor in the
repository trims its extracted fields (`.text().trim()` / `cleanText`),
so their outputs satisfy it. -/
def FieldOk (s : String) : Prop := s ≠ "" → ∃ c ∈ s.data, jsWs c = false

/-- The backoff schedule: the sleeps performed after the failures of
attempts `made+1, made+2, ...` (0-indexed oracle), each
`d * (attempt index + 1)`; with `made = 0`, entry `i` is the sleep
before attempt `i + 2` and equals `d * (i + 2)`. -/
def backoffDelays (d : Int) (made k : Nat) : List Int :=
  (List.range k).map (fun i => d * ((made + i + 2 : Nat) : Int))

/-- The minimum of a list of timestamps (default for the empty list). -/
def listMinD (l : List Int) (dflt : Int) : Int :=
  match l with
  | [] => dflt
  | x :: xs => xs.foldl min x

/-- All timestamps stored by a limiter lie in the past (at observation
time `now`). -/
def TimestampsLe (rl : RateLimiter) (now : Int) : Prop :=
  ∀ k : String, ∀ t ∈ rl.requestTimestamps k, t ≤ now

/-- Every per-key stored list is bounded by the configured limit. -/
def StoreBounded (rl : RateLimiter) : Prop :=
  ∀ k : String, (rl.requestTimestamps k).length ≤ rl.opts.requestsPerMinute

/-- A document on which every selector `extractJobData` consults comes up
empty, while the raw HTML carries a JSON-LD block naming the hiring
organization "Acme Corp"; the description selector finds text, and a
plain `h1` holds the title.  Used to exercise the generic fallback. -/
def docJsonLdOnlyCompany : Doc :=
  { h1First := "Senior Software Engineer"
    titleTag := ""
    companySelTexts := []
    descSelTexts := ["We are hiring a senior software engineer to build things."]
    containerTexts := []
    jsonLdCompany := some "Acme Corp" }

/-- A document whose only `h1` contains a single space character and
nothing else queryable. -/
def docWhitespaceH1 : Doc :=
  { h1First := " "
    titleTag := ""
    companySelTexts := []
    descSelTexts := []
    containerTexts := []
    jsonLdCompany := none }

/-- A page wrapper for the two example documents. -/
def pageOf (d : Doc) (html : String) : FetchedPage :=
  { html := html, doc := d, status := 200 }

/-- An empty-field specific-extraction result (as a specific scraper
returns when none of its selectors match: all three fields trim to ""). -/
def emptySpecific (url : String) : ScrapedData :=
  { title := "", company := "", description := "", url := url, scraper := "" }

/-- A document exposing nothing the generic extractor's title/company
selectors can use, but with a description selector hit. -/
def docNoSignals : Doc :=
  { h1First := ""
    titleTag := ""
    companySelTexts := []
    descSelTexts := ["Build delightful things with us every day."]
    containerTexts := []
    jsonLdCompany := none }

/-- What `extractJobData` produces on `docNoSignals` (after stamping by
the generic scraper): both placeholders plus the selector description. -/
def scrapedNoSignals : ScrapedData :=
  { title := "Unknown Position"
    company := "Unknown Company"
    description := "Build delightful things with us every day."
    url := "https://example.org/job"
    scraper := "Generic" }

/-- The row `upsert_scraper_cache` inserts into an empty table at time 0
for url `https://j.example/1` with content `{}`, scraper `Generic`,
status 200, headers `{}`, TTL 24 h and no validators. -/
def cacheRowEx : CacheRow :=
  { id := 1
    url := "https://j.example/1"
    content := "\x7b\x7d"
    scraper_name := "Generic"
    status_code := 200
    headers := "\x7b\x7d"
    created_at := 0
    updated_at := 0
    expires_at := 86400000
    etag := none
    last_modified := none
    cache_hit_count := 0 }

/-- A specific-extraction result whose company came up empty while the
other required fields were found. -/
def specificEmptyCompany : ScrapedData :=
  { title := "Senior Software Engineer"
    company := ""
    description := "We are hiring a senior software engineer to build things."
    url := "https://jobs.example.com/123"
    scraper := "" }

/-! ## Lemmas about the string primitives -/

theorem mk_eq_empty_iff {l : List Char} : (⟨l⟩ : String) = "" ↔ l = [] := by
  rw [show ("" : String) = ⟨[]⟩ from rfl]
  exact ⟨fun h => by injection h, fun h => by rw [h]⟩

theorem str_ne_empty_iff {s : String} : s ≠ "" ↔ s.data ≠ [] := by
  obtain ⟨l⟩ := s
  exact not_congr mk_eq_empty_iff

theorem dropWhile_length_le (p : Char → Bool) (l : List Char) :
    (l.dropWhile p).length ≤ l.length :=
  (List.dropWhile_sublist p).length_le

theorem trimChars_length_le (l : List Char) : (trimChars l).length ≤ l.length := by
  unfold trimChars
  calc (((l.dropWhile jsWs).reverse.dropWhile jsWs).reverse).length
      = ((l.dropWhile jsWs).reverse.dropWhile jsWs).length := List.length_reverse _
    _ ≤ (l.dropWhile jsWs).reverse.length := dropWhile_length_le _ _
    _ = (l.dropWhile jsWs).length := List.length_reverse _
    _ ≤ l.length := dropWhile_length_le _ _

theorem mem_dropWhile_of_mem {p : Char → Bool} {x : Char} {l : List Char}
    (hx : x ∈ l) (hpx : p x = false) : x ∈ l.dropWhile p := by
  induction l with
  | nil => cases hx
  | cons a as ih =>
    rw [List.dropWhile_cons]
    by_cases ha : p a = true
    · have hxa : x ≠ a := fun h => by rw [h, ha] at hpx; cases hpx
      simp only [ha, if_true]
      exact ih ((List.mem_cons.mp hx).resolve_left hxa)
    · simp only [eq_false_of_ne_true ha, if_false] at *
      exact hx

theorem trimChars_ne_nil {l : List Char} (h : ∃ c ∈ l, jsWs c = false) :
    trimChars l ≠ [] := by
  obtain ⟨c, hc, hws⟩ := h
  unfold trimChars
  intro hnil
  have h1 : c ∈ l.dropWhile jsWs := mem_dropWhile_of_mem hc hws
  have h2 : c ∈ (l.dropWhile jsWs).reverse.dropWhile jsWs :=
    mem_dropWhile_of_mem (List.mem_reverse.mpr h1) hws
  have h3 : c ∈ ((l.dropWhile jsWs).reverse.dropWhile jsWs).reverse :=
    List.mem_reverse.mpr h2
  rw [hnil] at h3
  cases h3

theorem exists_nonWs_of_trimChars_ne_nil {l : List Char} (h : trimChars l ≠ []) :
    ∃ c ∈ trimChars l, jsWs c = false := by
  have hdrop : l.dropWhile jsWs ≠ [] := by
    intro hnil
    apply h
    unfold trimChars
    rw [hnil]
    rfl
  have hhead : jsWs ((l.dropWhile jsWs).head hdrop) = false :=
    List.head_dropWhile_not jsWs l hdrop
  refine ⟨(l.dropWhile jsWs).head hdrop, ?_, hhead⟩
  unfold trimChars
  exact List.mem_reverse.mpr
    (mem_dropWhile_of_mem (List.mem_reverse.mpr (List.head_mem hdrop)) hhead)

theorem collapseWs_hasNonWs {l : List Char} (b : Bool)
    (h : ∃ c ∈ l, jsWs c = false) :
    ∃ c ∈ collapseWsChars l b, jsWs c = false := by
  induction l generalizing b with
  | nil => obtain ⟨c, hc, _⟩ := h; cases hc
  | cons a as ih =>
    obtain ⟨c, hc, hws⟩ := h
    by_cases ha : jsWs a = true
    · have hca : c ≠ a := fun hh => by rw [hh, ha] at hws; cases hws
      have hcs : c ∈ as := (List.mem_cons.mp hc).resolve_left hca
      obtain ⟨c', hc', hws'⟩ := ih true ⟨c, hcs, hws⟩
      unfold collapseWsChars
      rw [ha]
      cases b with
      | true => exact ⟨c', by simpa using hc', hws'⟩
      | false => exact ⟨c', by simp [hc'], hws'⟩
    · have ha' : jsWs a = false := eq_false_of_ne_true ha
      refine ⟨a, ?_, ha'⟩
      unfold collapseWsChars
      rw [ha']
      simp

theorem cleanField_ne_empty {s : String} (h : ∃ c ∈ s.data, jsWs c = false) :
    cleanField s ≠ "" := by
  unfold cleanField jsTrim jsCollapseWs
  rw [ne_eq, mk_eq_empty_iff]
  exact trimChars_ne_nil (collapseWs_hasNonWs false h)

theorem fieldOk_jsTrim (s : String) : FieldOk (jsTrim s) := by
  intro h
  rw [str_ne_empty_iff] at h
  exact exists_nonWs_of_trimChars_ne_nil h

theorem fieldOk_of_trimFixed {s : String} (h : jsTrim s = s) : FieldOk s := by
  rw [← h]; exact fieldOk_jsTrim s

theorem cleanField_ne_empty_of_fieldOk {s : String} (hok : FieldOk s)
    (hne : s ≠ "") : cleanField s ≠ "" :=
  cleanField_ne_empty (hok hne)

theorem head_nonWs_of_trimFixed {c : Char} {cs : List Char}
    (h : trimChars (c :: cs) = c :: cs) : jsWs c = false := by
  by_contra hws
  have hws' : jsWs c = true := Bool.of_not_eq_false hws
  have hlen : (trimChars (c :: cs)).length ≤ cs.length := by
    calc (trimChars (c :: cs)).length
        ≤ ((c :: cs).dropWhile jsWs).length := by
          unfold trimChars
          rw [List.length_reverse]
          calc (((c :: cs).dropWhile jsWs).reverse.dropWhile jsWs).length
              ≤ ((c :: cs).dropWhile jsWs).reverse.length := dropWhile_length_le _ _
            _ = ((c :: cs).dropWhile jsWs).length := List.length_reverse _
      _ = (cs.dropWhile jsWs).length := by rw [List.dropWhile_cons]; simp [hws']
      _ ≤ cs.length := dropWhile_length_le _ _
  rw [h] at hlen
  simp at hlen

theorem trimFixed_data {s : String} (h : jsTrim s = s) : trimChars s.data = s.data := by
  have := String.ext_iff.mp h
  simpa [jsTrim] using this

/-! ## Lemmas about `extractJobData` -/

theorem fieldOk_firstNonEmptyTrim (ts : List String) : FieldOk (firstNonEmptyTrim ts) := by
  induction ts with
  | nil => intro h; cases h rfl
  | cons t ts ih =>
    unfold firstNonEmptyTrim
    by_cases ht : jsTrim t = ""
    · simpa [ht] using ih
    · simpa [ht] using fieldOk_jsTrim t

theorem fieldOk_largestFold (l : List String) (acc : Nat × String) (hacc : FieldOk acc.2) :
    FieldOk (l.foldl
      (fun acc t =>
        let tt := jsTrim t
        if tt.length > acc.1 ∧ tt.length > 200 then (tt.length, tt) else acc)
      acc).2 := by
  induction l generalizing acc with
  | nil => exact hacc
  | cons t ts ih =>
    simp only [List.foldl_cons]
    by_cases hcond : (jsTrim t).length > acc.1 ∧ (jsTrim t).length > 200
    · exact ih _ (by simpa [hcond] using fieldOk_jsTrim t)
    · exact ih _ (by simpa [hcond] using hacc)

theorem fieldOk_largestContainerText (l : List String) : FieldOk (largestContainerText l) :=
  fieldOk_largestFold l (0, "") (fun h => absurd rfl h)

/-- The title computed by `extractJobData`, in closed form. -/
theorem extractJobData_title (d : Doc) (url : String) :
    (extractJobData d url).title =
      jsTrim (jsOr d.h1First
        (jsOr ((jsSplit (fun c => c = '|') d.titleTag).headD "")
          (jsOr ((jsSplit (fun c => c = '-') d.titleTag).headD "") "Unknown Position"))) := rfl

/-- The company computed by `extractJobData`, in closed form. -/
theorem extractJobData_company (d : Doc) (url : String) :
    (extractJobData d url).company =
      (let company0 := firstNonEmptyTrim d.companySelTexts
       let company1 :=
         if company0 = "" then
           let titleParts := jsSplit (fun c => c = '|' ∨ c = '-') d.titleTag
           if titleParts.length > 1 then jsTrim (titleParts.getD 1 "") else company0
         else company0
       if company1 = "" then "Unknown Company" else company1) := rfl

/-- The description computed by `extractJobData`, in closed form. -/
theorem extractJobData_description (d : Doc) (url : String) :
    (extractJobData d url).description =
      (let description0 := firstNonEmptyTrim d.descSelTexts
       if description0 = "" then largestContainerText d.containerTexts
       else description0) := rfl

theorem jsOr_empty_left (b : String) : jsOr "" b = b := if_pos rfl

theorem jsOr_of_ne {a : String} (b : String) (h : a ≠ "") : jsOr a b = a := if_neg h

theorem extractJobData_company_good (d : Doc) (url : String) :
    (extractJobData d url).company ≠ "" ∧ FieldOk (extractJobData d url).company := by
  rw [extractJobData_company]
  simp only []
  split_ifs <;>
    first
      | exact ⟨by decide, fun _ => by decide⟩
      | (rename_i h; exact ⟨h, fieldOk_jsTrim _⟩)
      | (rename_i h; exact ⟨h, fieldOk_firstNonEmptyTrim _⟩)

theorem extractJobData_company_ne_empty (d : Doc) (url : String) :
    (extractJobData d url).company ≠ "" :=
  (extractJobData_company_good d url).1

theorem extractJobData_company_fieldOk (d : Doc) (url : String) :
    FieldOk (extractJobData d url).company :=
  (extractJobData_company_good d url).2

theorem extractJobData_title_fieldOk (d : Doc) (url : String) :
    FieldOk (extractJobData d url).title := by
  rw [extractJobData_title]; exact fieldOk_jsTrim _

theorem extractJobData_description_fieldOk (d : Doc) (url : String) :
    FieldOk (extractJobData d url).description := by
  rw [extractJobData_description]
  by_cases h0 : firstNonEmptyTrim d.descSelTexts = ""
  · simpa only [h0, if_pos] using fieldOk_largestContainerText d.containerTexts
  · simpa only [h0, if_neg] using fieldOk_firstNonEmptyTrim d.descSelTexts

/-! ## Lemmas about `splitChars` -/

theorem splitChars_ne_nil (p : Char → Bool) (l : List Char) : splitChars p l ≠ [] := by
  cases l with
  | nil => simp [splitChars]
  | cons c cs =>
    unfold splitChars
    cases splitChars p cs with
    | nil => simp
    | cons r rs =>
      by_cases hc : p c = true
      · simp [hc]
      · simp [hc]

theorem splitChars_head_pos {p : Char → Bool} {c : Char} {cs : List Char} (h : p c = true) :
    (splitChars p (c :: cs)).headD [] = [] := by
  unfold splitChars
  cases hs : splitChars p cs with
  | nil => exact absurd hs (splitChars_ne_nil p cs)
  | cons r rs => simp [h]

theorem splitChars_head_neg {p : Char → Bool} {c : Char} {cs : List Char} (h : p c = false) :
    ∃ t, (splitChars p (c :: cs)).headD [] = c :: t := by
  unfold splitChars
  cases hs : splitChars p cs with
  | nil => exact absurd hs (splitChars_ne_nil p cs)
  | cons r rs => exact ⟨r, by simp [h]⟩

theorem jsSplit_headD (p : Char → Bool) (s : String) :
    (jsSplit p s).headD "" = ⟨(splitChars p s.data).headD []⟩ := by
  unfold jsSplit
  cases hs : splitChars p s.data with
  | nil => exact absurd hs (splitChars_ne_nil p s.data)
  | cons r rs => simp

/-- Under trimmed inputs, `extractJobData` produces a non-empty title:
the first truthy candidate starts with a non-whitespace character (or the
placeholder is used). -/
theorem jsTrim_mk_cons_ne_empty {c : Char} {t : List Char} (hc : jsWs c = false) :
    jsTrim ⟨c :: t⟩ ≠ "" := by
  show (⟨trimChars (c :: t)⟩ : String) ≠ ""
  rw [ne_eq, mk_eq_empty_iff]
  exact trimChars_ne_nil ⟨c, by simp, hc⟩

theorem extractJobData_title_ne_empty (d : Doc) (url : String)
    (hh1 : jsTrim d.h1First = d.h1First) (htt : jsTrim d.titleTag = d.titleTag) :
    (extractJobData d url).title ≠ "" := by
  rw [extractJobData_title]
  by_cases hh : d.h1First = ""
  · by_cases ht : d.titleTag = ""
    · rw [hh, ht]; decide
    · -- titleTag is non-empty and trim-fixed, so it starts with a
      -- non-whitespace character c.
      have hne : d.titleTag.data ≠ [] := str_ne_empty_iff.mp ht
      obtain ⟨c, cs, hdat⟩ := List.exists_cons_of_ne_nil hne
      have hcns : jsWs c = false := by
        have h := trimFixed_data htt
        rw [hdat] at h
        exact head_nonWs_of_trimFixed h
      by_cases hpipe : c = '|'
      · -- the '|'-split's first segment is empty; the '-'-split's first
        -- segment starts with '|', a non-whitespace character.
        have h1 : (jsSplit (fun x => x = '|') d.titleTag).headD "" = "" := by
          rw [jsSplit_headD, hdat, splitChars_head_pos (by simp [hpipe])]
        obtain ⟨t, h2⟩ :=
          @splitChars_head_neg (fun x => decide (x = '-')) c cs (by simp [hpipe])
        have h2' : (jsSplit (fun x => x = '-') d.titleTag).headD "" = ⟨c :: t⟩ := by
          rw [jsSplit_headD, hdat, h2]
        have hmk : (⟨c :: t⟩ : String) ≠ "" := by
          rw [ne_eq, mk_eq_empty_iff]; simp
        rw [hh, h1, h2', jsOr_empty_left, jsOr_empty_left, jsOr_of_ne _ hmk]
        exact jsTrim_mk_cons_ne_empty hcns
      · obtain ⟨t, h1⟩ :=
          @splitChars_head_neg (fun x => decide (x = '|')) c cs (by simp [hpipe])
        have h1' : (jsSplit (fun x => x = '|') d.titleTag).headD "" = ⟨c :: t⟩ := by
          rw [jsSplit_headD, hdat, h1]
        have hmk : (⟨c :: t⟩ : String) ≠ "" := by
          rw [ne_eq, mk_eq_empty_iff]; simp
        rw [hh, h1', jsOr_empty_left, jsOr_of_ne _ hmk]
        exact jsTrim_mk_cons_ne_empty hcns
  · rw [jsOr_of_ne _ hh, hh1]
    exact hh

/-! ## Lemmas about the rate limiter -/

theorem isRateLimited_denied_eq {rl : RateLimiter} {u : UrlModel} {now : Int}
    (h : ((rl.requestTimestamps (getDomainKey rl.opts u)).filter
        (inWindow now rl.opts.windowMs)).length ≥ rl.opts.requestsPerMinute) :
    isRateLimited rl u now = (true, rl) := by
  simp [isRateLimited, h]

theorem isRateLimited_admitted_eq {rl : RateLimiter} {u : UrlModel} {now : Int}
    (h : ¬ ((rl.requestTimestamps (getDomainKey rl.opts u)).filter
        (inWindow now rl.opts.windowMs)).length ≥ rl.opts.requestsPerMinute) :
    isRateLimited rl u now =
      (false,
        { rl with
          requestTimestamps := fun k =>
            if k = getDomainKey rl.opts u then
              (rl.requestTimestamps (getDomainKey rl.opts u)).filter
                (inWindow now rl.opts.windowMs) ++ [now]
            else rl.requestTimestamps k }) := by
  simp [isRateLimited, h]

theorem isRateLimited_opts (rl : RateLimiter) (u : UrlModel) (now : Int) :
    (isRateLimited rl u now).2.opts = rl.opts := by
  by_cases h : ((rl.requestTimestamps (getDomainKey rl.opts u)).filter
      (inWindow now rl.opts.windowMs)).length ≥ rl.opts.requestsPerMinute
  · rw [isRateLimited_denied_eq h]
  · rw [isRateLimited_admitted_eq h]

theorem isRateLimited_frame {rl : RateLimiter} {u : UrlModel} {now : Int} {k : String}
    (hk : k ≠ getDomainKey rl.opts u) :
    (isRateLimited rl u now).2.requestTimestamps k = rl.requestTimestamps k := by
  by_cases h : ((rl.requestTimestamps (getDomainKey rl.opts u)).filter
      (inWindow now rl.opts.windowMs)).length ≥ rl.opts.requestsPerMinute
  · rw [isRateLimited_denied_eq h]
  · rw [isRateLimited_admitted_eq h]
    simp [hk]

theorem isRateLimited_fst_true_iff (rl : RateLimiter) (u : UrlModel) (now : Int) :
    (isRateLimited rl u now).1 = true ↔
      ((rl.requestTimestamps (getDomainKey rl.opts u)).filter
        (inWindow now rl.opts.windowMs)).length ≥ rl.opts.requestsPerMinute := by
  by_cases h : ((rl.requestTimestamps (getDomainKey rl.opts u)).filter
      (inWindow now rl.opts.windowMs)).length ≥ rl.opts.requestsPerMinute
  · rw [isRateLimited_denied_eq h]; simpa using h
  · rw [isRateLimited_admitted_eq h]; simpa using h

theorem isRateLimited_key_determined {rl1 rl2 : RateLimiter} {u : UrlModel} {now : Int}
    (hopts : rl1.opts = rl2.opts)
    (hts : rl1.requestTimestamps (getDomainKey rl1.opts u) =
      rl2.requestTimestamps (getDomainKey rl2.opts u)) :
    (isRateLimited rl1 u now).1 = (isRateLimited rl2 u now).1 := by
  by_cases h : ((rl1.requestTimestamps (getDomainKey rl1.opts u)).filter
      (inWindow now rl1.opts.windowMs)).length ≥ rl1.opts.requestsPerMinute
  · rw [isRateLimited_denied_eq h,
      isRateLimited_denied_eq (by rw [← hts, ← hopts]; exact h)]
  · rw [isRateLimited_admitted_eq h,
      isRateLimited_admitted_eq (by rw [← hts, ← hopts]; exact h)]

theorem runCalls_cons (rl : RateLimiter) (u : UrlModel) (t : Int)
    (rest : List (UrlModel × Int)) :
    runCalls rl ((u, t) :: rest) =
      ((isRateLimited rl u t).1 :: (runCalls (isRateLimited rl u t).2 rest).1,
       (runCalls (isRateLimited rl u t).2 rest).2) := by
  cases h : isRateLimited rl u t with
  | mk b rl' => simp [runCalls, h]

theorem runCalls_opts (rl : RateLimiter) (calls : List (UrlModel × Int)) :
    (runCalls rl calls).2.opts = rl.opts := by
  induction calls generalizing rl with
  | nil => rfl
  | cons c rest ih =>
    obtain ⟨u, t⟩ := c
    rw [runCalls_cons]
    simp only []
    rw [ih, isRateLimited_opts]

theorem runCalls_frame {rl : RateLimiter} {calls : List (UrlModel × Int)} {k : String}
    (h : ∀ c ∈ calls, getDomainKey rl.opts c.1 ≠ k) :
    (runCalls rl calls).2.requestTimestamps k = rl.requestTimestamps k := by
  induction calls generalizing rl with
  | nil => rfl
  | cons c rest ih =>
    obtain ⟨u, t⟩ := c
    rw [runCalls_cons]
    simp only []
    have hu : getDomainKey rl.opts u ≠ k := h (u, t) (by simp)
    have hrest : ∀ c ∈ rest, getDomainKey (isRateLimited rl u t).2.opts c.1 ≠ k := by
      intro c hc
      rw [isRateLimited_opts]
      exact h c (by simp [hc])
    rw [ih hrest, isRateLimited_frame (fun hk => hu hk.symm)]

/-- Starting from a state whose window for the key holds `stored`, a run
of calls at non-decreasing times that all stay within one window of every
stored/earlier timestamp is fully admitted, and afterwards the key's list
is `stored ++ times`. -/
theorem runCalls_all_admitted (u : UrlModel) (times : List Int) :
    ∀ (rl : RateLimiter) (stored : List Int),
      rl.requestTimestamps (getDomainKey rl.opts u) = stored →
      stored.length + times.length ≤ rl.opts.requestsPerMinute →
      List.Pairwise (fun a b => a ≤ b ∧ b - a < rl.opts.windowMs) (stored ++ times) →
      (runCalls rl (times.map (fun t => (u, t)))).1 = List.replicate times.length false ∧
      (runCalls rl (times.map (fun t => (u, t)))).2.requestTimestamps
        (getDomainKey rl.opts u) = stored ++ times := by
  induction times with
  | nil =>
    intro rl stored hst _ _
    simpa [runCalls] using hst
  | cons t ts ih =>
    intro rl stored hst hlen hpair
    have hcross : ∀ s ∈ stored, s ≤ t ∧ t - s < rl.opts.windowMs := by
      intro s hs
      exact (List.pairwise_append.mp hpair).2.2 s hs t (by simp)
    have hfilter : stored.filter (inWindow t rl.opts.windowMs) = stored := by
      rw [List.filter_eq_self]
      intro s hs
      simpa [inWindow] using (hcross s hs).2
    have hlt : ¬ ((rl.requestTimestamps (getDomainKey rl.opts u)).filter
        (inWindow t rl.opts.windowMs)).length ≥ rl.opts.requestsPerMinute := by
      rw [hst, hfilter]
      simp only [List.length_cons] at hlen
      omega
    have hstep := isRateLimited_admitted_eq hlt
    set rl1 := (isRateLimited rl u t).2 with hrl1
    have hopts1 : rl1.opts = rl.opts := isRateLimited_opts rl u t
    have hts1 : rl1.requestTimestamps (getDomainKey rl.opts u) = stored ++ [t] := by
      rw [hrl1, hstep]
      simp [hst, hfilter]
    have hkey1 : getDomainKey rl1.opts u = getDomainKey rl.opts u := by rw [hopts1]
    have hpair1 : List.Pairwise (fun a b => a ≤ b ∧ b - a < rl1.opts.windowMs)
        ((stored ++ [t]) ++ ts) := by
      rw [hopts1, List.append_assoc]
      simpa using hpair
    have hlen1 : (stored ++ [t]).length + ts.length ≤ rl1.opts.requestsPerMinute := by
      rw [hopts1]
      simp only [List.length_append, List.length_singleton]
      simp only [List.length_cons] at hlen
      omega
    obtain ⟨ihres, ihts⟩ := ih rl1 (stored ++ [t]) (by rw [hkey1]; exact hts1) hlen1 hpair1
    have hfst : (isRateLimited rl u t).1 = false := by rw [hstep]
    constructor
    · rw [List.map_cons, runCalls_cons]
      simp only []
      rw [hfst, ← hrl1, ihres]
      simp [List.replicate_succ]
    · rw [List.map_cons, runCalls_cons]
      simp only []
      rw [← hrl1]
      rw [hkey1] at ihts
      rw [ihts]
      simp

/-! ## Lemmas about `sortAsc`, `listMinD`, `getTimeUntilReset`, `waitForRateLimit` -/

theorem foldl_min_mem (xs : List Int) (x : Int) : xs.foldl min x ∈ x :: xs := by
  induction xs generalizing x with
  | nil => simp
  | cons y ys ih =>
    simp only [List.foldl_cons]
    rcases List.mem_cons.mp (ih (min x y)) with h | h
    · rcases min_choice x y with hm | hm
      · rw [h, hm]; simp
      · rw [h, hm]; simp
    · simp [List.mem_cons.mpr (Or.inr h)]

theorem foldl_min_le (xs : List Int) (x : Int) :
    xs.foldl min x ≤ x ∧ ∀ y ∈ xs, xs.foldl min x ≤ y := by
  induction xs generalizing x with
  | nil => simp
  | cons y ys ih =>
    have h := ih (min x y)
    simp only [List.foldl_cons]
    refine ⟨h.1.trans (min_le_left x y), ?_⟩
    intro z hz
    rcases List.mem_cons.mp hz with rfl | hz'
    · exact h.1.trans (min_le_right x z)
    · exact h.2 z hz'

theorem listMinD_mem {l : List Int} (h : l ≠ []) : listMinD l 0 ∈ l := by
  cases l with
  | nil => exact absurd rfl h
  | cons x xs => exact foldl_min_mem xs x

theorem listMinD_le {l : List Int} (y : Int) (hy : y ∈ l) : listMinD l 0 ≤ y := by
  cases l with
  | nil => cases hy
  | cons x xs =>
    rcases List.mem_cons.mp hy with rfl | hy'
    · exact (foldl_min_le xs y).1
    · exact (foldl_min_le xs x).2 y hy'

theorem sortAsc_ne_nil {l : List Int} (h : l ≠ []) : sortAsc l ≠ [] := by
  intro hnil
  have hlen := (List.perm_insertionSort (fun a b : Int => a ≤ b) l).length_eq
  rw [show List.insertionSort (fun a b : Int => a ≤ b) l = sortAsc l from rfl, hnil] at hlen
  exact h (List.length_eq_zero.mp hlen.symm)

theorem sortAsc_headD_eq_listMinD {l : List Int} (h : l ≠ []) :
    (sortAsc l).headD 0 = listMinD l 0 := by
  obtain ⟨m, s', hs⟩ := List.exists_cons_of_ne_nil (sortAsc_ne_nil h)
  have hperm : (sortAsc l).Perm l := List.perm_insertionSort (fun a b : Int => a ≤ b) l
  have hsort : List.Sorted (fun a b : Int => a ≤ b) (sortAsc l) :=
    List.sorted_insertionSort (fun a b : Int => a ≤ b) l
  rw [hs] at hsort
  have hmle : ∀ y ∈ l, m ≤ y := by
    intro y hy
    have hy' : y ∈ m :: s' := by rw [← hs]; exact hperm.mem_iff.mpr hy
    rcases List.mem_cons.mp hy' with rfl | hy''
    · exact le_refl y
    · exact (List.sorted_cons.mp hsort).1 y hy''
  have hmem : m ∈ l := hperm.mem_iff.mp (by rw [hs]; simp)
  rw [hs]
  simp only [List.headD_cons]
  exact le_antisymm (hmle _ (listMinD_mem h)) (listMinD_le m hmem)

theorem getTimeUntilReset_zero {rl : RateLimiter} {u : UrlModel} {now : Int}
    (h : rl.requestTimestamps (getDomainKey rl.opts u) = [] ∨
      (rl.requestTimestamps (getDomainKey rl.opts u)).length < rl.opts.requestsPerMinute) :
    getTimeUntilReset rl u now = 0 := by
  unfold getTimeUntilReset
  rcases h with h | h
  · simp [h]
  · by_cases h0 : (rl.requestTimestamps (getDomainKey rl.opts u)).length = 0
    · simp [h0]
    · simp [h0, h]

theorem getTimeUntilReset_formula {rl : RateLimiter} {u : UrlModel} {now : Int}
    (h1 : rl.requestTimestamps (getDomainKey rl.opts u) ≠ [])
    (h2 : ¬ (rl.requestTimestamps (getDomainKey rl.opts u)).length <
      rl.opts.requestsPerMinute) :
    getTimeUntilReset rl u now =
      max 0 (listMinD (rl.requestTimestamps (getDomainKey rl.opts u)) 0 +
        rl.opts.windowMs - now) := by
  unfold getTimeUntilReset
  have h0 : ¬ (rl.requestTimestamps (getDomainKey rl.opts u)).length = 0 := by
    simpa [List.length_eq_zero] using h1
  simp only [h0, if_false, h2, if_false]
  rw [sortAsc_headD_eq_listMinD h1]

theorem getTimeUntilReset_nonneg (rl : RateLimiter) (u : UrlModel) (now : Int) :
    0 ≤ getTimeUntilReset rl u now := by
  unfold getTimeUntilReset
  simp only []
  split_ifs <;> simp

theorem getTimeUntilReset_le_window {rl : RateLimiter} {u : UrlModel} {now : Int}
    (hts : ∀ t ∈ rl.requestTimestamps (getDomainKey rl.opts u), t ≤ now)
    (hw : 0 ≤ rl.opts.windowMs) :
    getTimeUntilReset rl u now ≤ rl.opts.windowMs := by
  unfold getTimeUntilReset
  simp only []
  split_ifs with h0 h1
  · exact hw
  · exact hw
  · have hne : rl.requestTimestamps (getDomainKey rl.opts u) ≠ [] := by
      simpa [← List.length_eq_zero] using h0
    rw [sortAsc_headD_eq_listMinD hne]
    have hmem := listMinD_mem hne
    have hle := hts _ hmem
    exact max_le hw (by omega)

theorem waitForRateLimit_denied {rl : RateLimiter} {u : UrlModel} {now : Int}
    (h : (isRateLimited rl u now).1 = true) :
    waitForRateLimit rl u now = (getTimeUntilReset rl u now, rl) := by
  have hcond := (isRateLimited_fst_true_iff rl u now).mp h
  have heq := isRateLimited_denied_eq hcond
  unfold waitForRateLimit
  rw [heq]
  simp only []
  have hnn := getTimeUntilReset_nonneg rl u now
  by_cases hpos : getTimeUntilReset rl u now > 0
  · simp [hpos]
  · have h0 : getTimeUntilReset rl u now = 0 := le_antisymm (by omega) hnn
    simp [h0]

theorem waitForRateLimit_admitted {rl : RateLimiter} {u : UrlModel} {now : Int}
    (h : (isRateLimited rl u now).1 = false) :
    waitForRateLimit rl u now = (0, (isRateLimited rl u now).2) := by
  unfold waitForRateLimit
  cases heq : isRateLimited rl u now with
  | mk b rl' =>
    have hb : b = false := by rw [heq] at h; exact h
    subst hb
    rfl

theorem waitForRateLimit_wait_le {rl : RateLimiter} {u : UrlModel} {now : Int}
    (hts : TimestampsLe rl now) (hw : 0 ≤ rl.opts.windowMs) :
    (waitForRateLimit rl u now).1 ≤ rl.opts.windowMs := by
  by_cases h : (isRateLimited rl u now).1 = true
  · rw [waitForRateLimit_denied h]
    exact getTimeUntilReset_le_window (hts _) hw
  · rw [waitForRateLimit_admitted (by simpa using h)]
    simpa using hw

theorem isRateLimited_bound {rl : RateLimiter} {u : UrlModel} {now : Int}
    (h : StoreBounded rl) : StoreBounded (isRateLimited rl u now).2 := by
  by_cases hc : ((rl.requestTimestamps (getDomainKey rl.opts u)).filter
      (inWindow now rl.opts.windowMs)).length ≥ rl.opts.requestsPerMinute
  · rw [isRateLimited_denied_eq hc]
    exact h
  · rw [isRateLimited_admitted_eq hc]
    intro k
    show (if k = getDomainKey rl.opts u then
        (rl.requestTimestamps (getDomainKey rl.opts u)).filter
          (inWindow now rl.opts.windowMs) ++ [now]
      else rl.requestTimestamps k).length ≤ rl.opts.requestsPerMinute
    by_cases hk : k = getDomainKey rl.opts u
    · rw [if_pos hk]
      simp only [List.length_append, List.length_singleton]
      omega
    · rw [if_neg hk]
      exact h k

theorem waitForRateLimit_bound {rl : RateLimiter} {u : UrlModel} {now : Int}
    (h : StoreBounded rl) : StoreBounded (waitForRateLimit rl u now).2 := by
  unfold waitForRateLimit
  cases heq : isRateLimited rl u now with
  | mk b rl' =>
    have : rl' = (isRateLimited rl u now).2 := by rw [heq]
    cases b <;> simp only [] <;> (rw [this]; exact isRateLimited_bound h)

/-! ## Lemmas about validation and `scrape` -/

theorem validateJobData_error_of {data : ScrapedData} {url html : String}
    (h : data.title = "" ∨ data.company = "" ∨ data.description = "") :
    ∃ e, validateJobData data url html = .error e := by
  have hlen :
      ((if data.title = "" then ["job title"] else []) ++
        (if data.company = "" then ["company name"] else []) ++
        (if data.description = "" then ["job description"] else [])).length > 0 := by
    rcases h with h | h | h <;> simp [h]
  refine ⟨createExtractionError url html
    ((if data.title = "" then ["job title"] else []) ++
      (if data.company = "" then ["company name"] else []) ++
      (if data.description = "" then ["job description"] else [])), ?_⟩
  unfold validateJobData
  simp only []
  rw [if_pos hlen]

theorem validateJobData_ok_elim {data : ScrapedData} {url html : String} {d2 : ScrapedData}
    (h : validateJobData data url html = .ok d2) :
    d2 = data ∧ data.title ≠ "" ∧ data.company ≠ "" ∧ data.description ≠ "" := by
  have h1 : data.title ≠ "" := by
    intro he
    obtain ⟨e, hee⟩ := @validateJobData_error_of data url html (Or.inl he)
    rw [hee] at h; cases h
  have h2 : data.company ≠ "" := by
    intro he
    obtain ⟨e, hee⟩ :=
      @validateJobData_error_of data url html (Or.inr (Or.inl he))
    rw [hee] at h; cases h
  have h3 : data.description ≠ "" := by
    intro he
    obtain ⟨e, hee⟩ :=
      @validateJobData_error_of data url html (Or.inr (Or.inr he))
    rw [hee] at h; cases h
  refine ⟨?_, h1, h2, h3⟩
  simp [validateJobData, h1, h2, h3] at h
  exact h.symm

theorem scrape_cannotHandle {name url : String} {bypass ready : Bool}
    {cached : Option CacheEntryJs} {fetched : Except ScraperError FetchedPage}
    {specific : ScrapedData} :
    scrape name false bypass ready cached fetched specific url =
      ⟨.error (.cannotHandle name url), []⟩ := by
  simp [scrape]

theorem scrape_cacheHit {name url : String} {bypass ready : Bool}
    {cached : Option CacheEntryJs} {fetched : Except ScraperError FetchedPage}
    {specific : ScrapedData} {e : CacheEntryJs}
    (he : cacheHitEntry bypass ready cached = some e) :
    scrape name true bypass ready cached fetched specific url = ⟨.ok e.content, []⟩ := by
  simp [scrape, he]

theorem scrape_fetchError {name url : String} {bypass ready : Bool}
    {cached : Option CacheEntryJs} {specific : ScrapedData} {fe : ScraperError}
    (hmiss : cacheHitEntry bypass ready cached = none) :
    scrape name true bypass ready cached (.error fe) specific url =
      ⟨.error (.fetchFailed fe), []⟩ := by
  simp [scrape, hmiss]

theorem scrape_validate_error {name url : String} {bypass ready : Bool}
    {cached : Option CacheEntryJs} {specific : ScrapedData} {page : FetchedPage}
    {ee : ExtractError}
    (hmiss : cacheHitEntry bypass ready cached = none)
    (hee : validateJobData
      (if specific.title = "" || specific.company = "" || specific.description = "" then
        extractJobData page.doc url
      else specific) url page.html = .error ee) :
    scrape name true bypass ready cached (.ok page) specific url =
      ⟨.error (.extractionFailed ee), []⟩ := by
  simp only [scrape, hmiss, hee, Bool.not_true, Bool.false_eq_true, if_false]

theorem scrape_validate_ok {name url : String} {bypass ready : Bool}
    {cached : Option CacheEntryJs} {specific : ScrapedData} {page : FetchedPage}
    {data2 : ScrapedData}
    (hmiss : cacheHitEntry bypass ready cached = none)
    (hok : validateJobData
      (if specific.title = "" || specific.company = "" || specific.description = "" then
        extractJobData page.doc url
      else specific) url page.html = .ok data2) :
    scrape name true bypass ready cached (.ok page) specific url =
      ⟨.ok { cleanJobData data2 with scraper := name, url := url },
       if !bypass && ready then [{ cleanJobData data2 with scraper := name, url := url }]
       else []⟩ := by
  simp only [scrape, hmiss, hok, Bool.not_true, Bool.false_eq_true, if_false]

/-! ## Lemmas about `fetchWithRetry` -/

theorem backoffDelays_zero (d : Int) (made : Nat) : backoffDelays d made 0 = [] := rfl

theorem backoffDelays_succ (d : Int) (made k : Nat) :
    backoffDelays d made (k + 1) =
      d * ((made + 2 : Nat) : Int) :: backoffDelays d (made + 1) k := by
  unfold backoffDelays
  rw [List.range_succ_eq_map, List.map_cons, List.map_map]
  refine List.cons_eq_cons.mpr ⟨by norm_num, ?_⟩
  apply List.map_congr_left
  intro i _
  show d * ((made + Nat.succ i + 2 : Nat) : Int) = d * ((made + 1 + i + 2 : Nat) : Int)
  rw [show made + Nat.succ i + 2 = made + 1 + i + 2 from by omega]

theorem fetchLoop_step_success {oracle : Nat → AttemptOutcome} {retries : Nat} {d : Int}
    {n made : Nat} {delays : List Int} {le : Option String} {s : Nat}
    (ho : oracle made = .response s) (hok : responseOk s = true) :
    fetchLoop oracle retries d (n + 1) le delays made = ⟨.ok s, delays, made + 1⟩ := by
  conv_lhs => rw [fetchLoop]
  rw [ho]
  simp [hok]

theorem fetchLoop_step_fail {oracle : Nat → AttemptOutcome} {retries : Nat} {d : Int}
    {n made : Nat} {delays : List Int} {le : Option String}
    (h : (attemptFailureMsg (oracle made)).isSome) :
    fetchLoop oracle retries d (n + 1) le delays made =
      fetchLoop oracle retries d n (attemptFailureMsg (oracle made))
        (if n > 0 then delays ++ [d * ((retries : Int) - (n : Int) + 1)] else delays)
        (made + 1) := by
  cases ho : oracle made with
  | response s =>
    by_cases hok : responseOk s = true
    · rw [ho] at h
      simp [attemptFailureMsg, hok] at h
    · have hok' : responseOk s = false := by simpa using hok
      conv_lhs => rw [fetchLoop]
      rw [ho]
      simp [attemptFailureMsg, hok']
  | netError m =>
    conv_lhs => rw [fetchLoop]
    rw [ho]
    simp [attemptFailureMsg]

theorem fetchLoop_success (oracle : Nat → AttemptOutcome) (retries : Nat) (d : Int) :
    ∀ (k n made : Nat) (delays : List Int) (le : Option String) (s : Nat),
      k < n → n + made = retries →
      (∀ j, j < k → (attemptFailureMsg (oracle (made + j))).isSome) →
      oracle (made + k) = .response s → responseOk s = true →
      fetchLoop oracle retries d n le delays made =
        ⟨.ok s, delays ++ backoffDelays d made k, made + k + 1⟩ := by
  intro k
  induction k with
  | zero =>
    intro n made delays le s hk hn hfail ho hok
    obtain ⟨n', rfl⟩ : ∃ n', n = n' + 1 := ⟨n - 1, by omega⟩
    rw [fetchLoop_step_success (show oracle made = .response s by simpa using ho) hok]
    simp [backoffDelays_zero]
  | succ k ih =>
    intro n made delays le s hk hn hfail ho hok
    obtain ⟨n', rfl⟩ : ∃ n', n = n' + 1 := ⟨n - 1, by omega⟩
    rw [fetchLoop_step_fail
      (show (attemptFailureMsg (oracle made)).isSome by simpa using hfail 0 (by omega))]
    rw [if_pos (show n' > 0 by omega)]
    rw [show (retries : Int) - (n' : Int) + 1 = ((made + 2 : Nat) : Int) by push_cast; omega]
    rw [ih n' (made + 1) _ _ s (by omega) (by omega)
      (fun j hj => by
        have h2 := hfail (j + 1) (by omega)
        rw [show made + (j + 1) = made + 1 + j by omega] at h2
        exact h2)
      (by rw [show made + 1 + k = made + (k + 1) by omega]; exact ho) hok]
    rw [backoffDelays_succ]
    rw [show made + 1 + k + 1 = made + (k + 1) + 1 by omega]
    rw [List.append_cons, List.append_assoc]
    simp

theorem fetchLoop_fail_all (oracle : Nat → AttemptOutcome) (retries : Nat) (d : Int) :
    ∀ (n made : Nat) (delays : List Int) (le : Option String),
      n + made = retries → 0 < n →
      (∀ j, j < n → (attemptFailureMsg (oracle (made + j))).isSome) →
      fetchLoop oracle retries d n le delays made =
        ⟨.error (fetchFailedError retries (attemptFailureMsg (oracle (retries - 1)))),
         delays ++ backoffDelays d made (n - 1), retries⟩ := by
  intro n
  induction n with
  | zero => intro made delays le _ h0; omega
  | succ n' ih =>
    intro made delays le hn _ hfail
    rw [fetchLoop_step_fail
      (show (attemptFailureMsg (oracle made)).isSome by simpa using hfail 0 (by omega))]
    by_cases hn' : n' = 0
    · subst hn'
      rw [if_neg (by omega)]
      conv_lhs => rw [fetchLoop]
      rw [show retries - 1 = made by omega, show made + 1 = retries by omega]
      simp [backoffDelays_zero]
    · rw [if_pos (by omega)]
      rw [show (retries : Int) - (n' : Int) + 1 = ((made + 2 : Nat) : Int) by
        push_cast; omega]
      rw [ih (made + 1) _ _ (by omega) (by omega)
        (fun j hj => by
          have h2 := hfail (j + 1) (by omega)
          rw [show made + (j + 1) = made + 1 + j by omega] at h2
          exact h2)]
      have hb : backoffDelays d made n' =
          d * ((made + 2 : Nat) : Int) :: backoffDelays d (made + 1) (n' - 1) := by
        conv_lhs => rw [show n' = (n' - 1) + 1 by omega]
        rw [backoffDelays_succ]
      rw [show n' + 1 - 1 = n' from rfl, hb]
      simp

/-! ## Lemmas about the SQL cache -/

theorem rowsFor_update_self (db : List CacheRow) (u : String) (g : CacheRow → CacheRow)
    (hg : ∀ r, (g r).url = r.url) :
    rowsFor (db.map (fun r => if r.url = u then g r else r)) u = (rowsFor db u).map g := by
  induction db with
  | nil => rfl
  | cons r rs ih =>
    unfold rowsFor at *
    by_cases hr : r.url = u
    · simp only [List.map_cons, if_pos hr, List.filter_cons]
      rw [if_pos (by simp [hg r, hr]), if_pos (by simp [hr])]
      simp [ih]
    · simp only [List.map_cons, if_neg hr, List.filter_cons]
      rw [if_neg (by simp [hr]), if_neg (by simp [hr])]
      exact ih

theorem rowsFor_update_other (db : List CacheRow) (u u' : String) (g : CacheRow → CacheRow)
    (hg : ∀ r, (g r).url = r.url) (hne : u' ≠ u) :
    rowsFor (db.map (fun r => if r.url = u then g r else r)) u' = rowsFor db u' := by
  induction db with
  | nil => rfl
  | cons r rs ih =>
    unfold rowsFor at *
    by_cases hr : r.url = u
    · simp only [List.map_cons, if_pos hr, List.filter_cons]
      rw [if_neg (by simp [hg r, hr]; exact fun he => hne he.symm),
        if_neg (by simp [hr]; exact fun he => hne he.symm)]
      exact ih
    · simp only [List.map_cons, if_neg hr, List.filter_cons]
      by_cases hr' : r.url = u'
      · rw [if_pos (by simp [hr']), if_pos (by simp [hr'])]
        simp [ih]
      · rw [if_neg (by simp [hr']), if_neg (by simp [hr'])]
        exact ih

theorem rowsFor_append (db l : List CacheRow) (u : String) :
    rowsFor (db ++ l) u = rowsFor db u ++ rowsFor l u :=
  List.filter_append _ _

theorem rowsFor_nil_of_not_any {db : List CacheRow} {u : String}
    (h : db.any (fun r => r.url = u) = false) : rowsFor db u = [] := by
  rw [rowsFor, List.filter_eq_nil_iff]
  intro r hr hru
  have : db.any (fun r => r.url = u) = true := List.any_eq_true.mpr ⟨r, hr, hru⟩
  rw [h] at this
  cases this

theorem rowsFor_singleton_ne {r : CacheRow} {u' : String} (h : r.url ≠ u') :
    rowsFor [r] u' = [] := by
  unfold rowsFor
  rw [List.filter_cons, if_neg (by simpa using h)]
  rfl

theorem rowsFor_singleton_eq {r : CacheRow} {u : String} (h : r.url = u) :
    rowsFor [r] u = [r] := by
  unfold rowsFor
  rw [List.filter_cons, if_pos (by simpa using h)]
  rfl

theorem rowsFor_singleton_of_any {db : List CacheRow} {u : String}
    (hwf : UrlsUnique db) (h : db.any (fun r => r.url = u) = true) :
    ∃ r, rowsFor db u = [r] ∧ r.url = u := by
  obtain ⟨r, hr, hru⟩ := List.any_eq_true.mp h
  have hmem : r ∈ rowsFor db u := List.mem_filter.mpr ⟨hr, hru⟩
  have hlen : (rowsFor db u).length = 1 := by
    have h1 : 1 ≤ (rowsFor db u).length := by
      cases he : rowsFor db u with
      | nil => rw [he] at hmem; cases hmem
      | cons a as => simp
    have h2 := hwf u
    omega
  obtain ⟨a, ha⟩ := List.length_eq_one.mp hlen
  refine ⟨a, ha, ?_⟩
  have : a ∈ rowsFor db u := by rw [ha]; simp
  exact of_decide_eq_true (List.mem_filter.mp this).2

/-- The row produced by `upsert_scraper_cache` for its url: singleton, with
the latest content and TTL, hit count reset to 0. -/
theorem upsert_rowsFor_self (db : List CacheRow) (now : Int) (freshId : Nat)
    (p_url p_content p_scraper_name : String) (p_status_code : Int) (p_headers : String)
    (p_ttl_hours : Int) (p_etag p_last_modified : Option String)
    (hwf : UrlsUnique db) :
    ∃ r, rowsFor (upsert_scraper_cache db now freshId p_url p_content p_scraper_name
        p_status_code p_headers p_ttl_hours p_etag p_last_modified).1 p_url = [r] ∧
      r.url = p_url ∧ r.content = p_content ∧ r.scraper_name = p_scraper_name ∧
      r.expires_at = now + hoursToMs p_ttl_hours ∧ r.cache_hit_count = 0 ∧
      r.updated_at = now := by
  by_cases hany : db.any (fun r => r.url = p_url) = true
  · obtain ⟨r0, hr0, hr0u⟩ := rowsFor_singleton_of_any hwf hany
    unfold upsert_scraper_cache
    rw [if_pos hany]
    simp only []
    rw [rowsFor_update_self db p_url
      (upsertUpdateRow now p_content p_scraper_name p_status_code p_headers
        (now + hoursToMs p_ttl_hours) p_etag p_last_modified) (fun r => rfl), hr0]
    exact ⟨_, rfl, hr0u, rfl, rfl, rfl, rfl, rfl⟩
  · unfold upsert_scraper_cache
    rw [if_neg hany]
    simp only []
    rw [rowsFor_append, rowsFor_nil_of_not_any (by simpa using hany), List.nil_append,
      rowsFor_singleton_eq rfl]
    exact ⟨_, rfl, rfl, rfl, rfl, rfl, rfl, rfl⟩

theorem upsert_rowsFor_other (db : List CacheRow) (now : Int) (freshId : Nat)
    (p_url p_content p_scraper_name : String) (p_status_code : Int) (p_headers : String)
    (p_ttl_hours : Int) (p_etag p_last_modified : Option String)
    {u' : String} (hne : u' ≠ p_url) :
    rowsFor (upsert_scraper_cache db now freshId p_url p_content p_scraper_name
      p_status_code p_headers p_ttl_hours p_etag p_last_modified).1 u' =
      rowsFor db u' := by
  unfold upsert_scraper_cache
  by_cases hany : db.any (fun r => r.url = p_url) = true
  · rw [if_pos hany]
    simp only []
    exact rowsFor_update_other db p_url u' _ (fun r => rfl) hne
  · rw [if_neg hany]
    simp only []
    rw [rowsFor_append, rowsFor_singleton_ne (fun he => hne he.symm)]
    simp

theorem upsert_wf (db : List CacheRow) (now : Int) (freshId : Nat)
    (p_url p_content p_scraper_name : String) (p_status_code : Int) (p_headers : String)
    (p_ttl_hours : Int) (p_etag p_last_modified : Option String)
    (hwf : UrlsUnique db) :
    UrlsUnique (upsert_scraper_cache db now freshId p_url p_content p_scraper_name
      p_status_code p_headers p_ttl_hours p_etag p_last_modified).1 := by
  intro u'
  by_cases hu : u' = p_url
  · obtain ⟨r, hr, _⟩ := upsert_rowsFor_self db now freshId p_url p_content p_scraper_name
      p_status_code p_headers p_ttl_hours p_etag p_last_modified hwf
    rw [hu, hr]
    simp
  · rw [upsert_rowsFor_other db now freshId p_url p_content p_scraper_name
      p_status_code p_headers p_ttl_hours p_etag p_last_modified hu]
    exact hwf u'

theorem get_res_eq (db : List CacheRow) (now : Int) (p_url : String) (b : Bool) :
    (get_scraper_cache db now p_url b).1 =
      (rowsFor db p_url).map (fun r => ⟨r, decide (r.expires_at < now)⟩) := rfl

theorem get_db_self {db : List CacheRow} {now : Int} {p_url : String}
    (hany : db.any (fun r => r.url = p_url) = true) :
    rowsFor (get_scraper_cache db now p_url true).2 p_url =
      (rowsFor db p_url).map
        (fun r => { r with cache_hit_count := r.cache_hit_count + 1, updated_at := now }) := by
  unfold get_scraper_cache
  simp only []
  rw [if_pos (by simp [hany])]
  exact rowsFor_update_self db p_url _ (fun r => rfl)

/-- Shared success analysis for `scrape` past the cache: the returned
record's required fields survive cleaning, and the cache write (if the
cache is in play) is exactly that record. -/
theorem scrape_success_fields {name url : String} {bypass ready : Bool}
    {cached : Option CacheEntryJs} {page : FetchedPage} {specific : ScrapedData}
    {rec : ScrapedData}
    (hmiss : cacheHitEntry bypass ready cached = none)
    (hspec : FieldOk specific.title ∧ FieldOk specific.company ∧ FieldOk specific.description)
    (hrec : (scrape name true bypass ready cached (.ok page) specific url).result = .ok rec) :
    rec.title ≠ "" ∧ rec.company ≠ "" ∧ rec.description ≠ "" ∧
    (scrape name true bypass ready cached (.ok page) specific url).cacheWrites =
      (if !bypass && ready then [rec] else []) := by
  cases hval : validateJobData
      (if specific.title = "" || specific.company = "" || specific.description = "" then
        extractJobData page.doc url
      else specific) url page.html with
  | error e =>
    rw [scrape_validate_error hmiss hval] at hrec
    cases hrec
  | ok data2 =>
    obtain ⟨hdata2, ht, hc, hd⟩ := validateJobData_ok_elim hval
    have hok1 : FieldOk (if specific.title = "" || specific.company = "" ||
        specific.description = "" then extractJobData page.doc url else specific).title ∧
        FieldOk (if specific.title = "" || specific.company = "" ||
          specific.description = "" then extractJobData page.doc url else specific).company ∧
        FieldOk (if specific.title = "" || specific.company = "" ||
          specific.description = "" then extractJobData page.doc url else specific).description := by
      split_ifs with hcond
      · exact ⟨extractJobData_title_fieldOk page.doc url,
          extractJobData_company_fieldOk page.doc url,
          extractJobData_description_fieldOk page.doc url⟩
      · exact hspec
    rw [scrape_validate_ok hmiss hval] at hrec ⊢
    simp only [Except.ok.injEq] at hrec
    subst hrec
    subst hdata2
    refine ⟨?_, ?_, ?_, rfl⟩
    · exact cleanField_ne_empty_of_fieldOk hok1.1 ht
    · exact cleanField_ne_empty_of_fieldOk hok1.2.1 hc
    · exact cleanField_ne_empty_of_fieldOk hok1.2.2 hd

/-- C1: a successful `scrape` only returns and only caches records whose
title, company and description are non-empty (the cache-hit path under
the integrity of previously validated writes, the fresh path by
validation before cleaning and caching); and when a required field is
still empty after the generic fallback, `scrape` fails with an extraction
error and writes nothing to the cache.  The `FieldOk` hypothesis states
that the specific extractor's fields are not whitespace-only, which every
extractor in the repository guarantees by trimming. -/
theorem C1_scrape_validates (name url : String) (bypass ready : Bool)
    (cached : Option CacheEntryJs) (fetched : Except ScraperError FetchedPage)
    (specific : ScrapedData)
    (hcache : ∀ e, cacheHitEntry bypass ready cached = some e →
      e.content.title ≠ "" ∧ e.content.company ≠ "" ∧ e.content.description ≠ "")
    (hspec : FieldOk specific.title ∧ FieldOk specific.company ∧
      FieldOk specific.description) :
    (∀ rec, (scrape name true bypass ready cached fetched specific url).result = .ok rec →
      rec.title ≠ "" ∧ rec.company ≠ "" ∧ rec.description ≠ "") ∧
    (∀ rec, rec ∈ (scrape name true bypass ready cached fetched specific url).cacheWrites →
      rec.title ≠ "" ∧ rec.company ≠ "" ∧ rec.description ≠ "") ∧
    (∀ page, fetched = .ok page → cacheHitEntry bypass ready cached = none →
      ((if specific.title = "" || specific.company = "" || specific.description = "" then
          extractJobData page.doc url else specific).title = "" ∨
        (if specific.title = "" || specific.company = "" || specific.description = "" then
          extractJobData page.doc url else specific).company = "" ∨
        (if specific.title = "" || specific.company = "" || specific.description = "" then
          extractJobData page.doc url else specific).description = "") →
      (∃ e, (scrape name true bypass ready cached fetched specific url).result =
        .error (.extractionFailed e)) ∧
      (scrape name true bypass ready cached fetched specific url).cacheWrites = []) := by
  refine ⟨?_, ?_, ?_⟩
  · intro rec hrec
    cases hhit : cacheHitEntry bypass ready cached with
    | some e =>
      rw [scrape_cacheHit hhit] at hrec
      simp only [Except.ok.injEq] at hrec
      subst hrec
      exact hcache e hhit
    | none =>
      cases fetched with
      | error fe =>
        rw [scrape_fetchError hhit] at hrec
        cases hrec
      | ok page =>
        obtain ⟨h1, h2, h3, _⟩ := scrape_success_fields hhit hspec hrec
        exact ⟨h1, h2, h3⟩
  · intro rec hmem
    cases hhit : cacheHitEntry bypass ready cached with
    | some e =>
      rw [scrape_cacheHit hhit] at hmem
      cases hmem
    | none =>
      cases fetched with
      | error fe =>
        rw [scrape_fetchError hhit] at hmem
        cases hmem
      | ok page =>
        cases hval : validateJobData
            (if specific.title = "" || specific.company = "" ||
              specific.description = "" then extractJobData page.doc url
            else specific) url page.html with
        | error e =>
          rw [scrape_validate_error hhit hval] at hmem
          cases hmem
        | ok data2 =>
          have hres : (scrape name true bypass ready cached (.ok page) specific
              url).result = .ok { cleanJobData data2 with scraper := name, url := url } := by
            rw [scrape_validate_ok hhit hval]
          obtain ⟨h1, h2, h3, hw⟩ := scrape_success_fields hhit hspec hres
          rw [hw] at hmem
          by_cases hbc : (!bypass && ready) = true
          · rw [if_pos hbc] at hmem
            rcases List.mem_singleton.mp hmem with rfl
            exact ⟨h1, h2, h3⟩
          · rw [if_neg hbc] at hmem
            cases hmem
  · intro page hf hmiss hempty
    subst hf
    obtain ⟨e, hval⟩ := @validateJobData_error_of _ url page.html hempty
    rw [scrape_validate_error hmiss hval]
    exact ⟨⟨e, rfl⟩, rfl⟩

/-- C1 witness: a concrete scrape of `docNoSignals` succeeds and its
record has non-empty required fields. -/
theorem C1_scrape_validates_witness :
    (scrape "Generic" true false true none
      (.ok (pageOf docNoSignals "<html><body>x</body></html>"))
      (emptySpecific "https://example.org/job") "https://example.org/job").result =
      .ok scrapedNoSignals ∧
    scrapedNoSignals.title ≠ "" ∧ scrapedNoSignals.company ≠ "" ∧
    scrapedNoSignals.description ≠ "" := by
  have h := C1_scrape_validates "Generic" "https://example.org/job" false true none
    (.ok (pageOf docNoSignals "<html><body>x</body></html>"))
    (emptySpecific "https://example.org/job")
    (fun e he => by simp [cacheHitEntry] at he)
    ⟨fun hne => absurd rfl hne, fun hne => absurd rfl hne, fun hne => absurd rfl hne⟩
  exact ⟨by decide, h.1 scrapedNoSignals (by decide)⟩

/-- C9 counterexample: on a document whose only `h1` contains a single
space (and whose title tag is empty), `extractJobData` returns an *empty*
title — the whitespace candidate is truthy in JavaScript, preempting the
`'Unknown Position'` placeholder, and the final `.trim()` then empties
it.  So the claim that the generic extractor's title is always non-empty
is false.  (The company placeholder still fires.) -/
theorem C9_counterexample :
    (extractJobData docWhitespaceH1 "https://example.org/job").title = "" ∧
    (extractJobData docWhitespaceH1 "https://example.org/job").company =
      "Unknown Company" := by
  decide

/-- C9 (amended): `extractJobData` always returns a non-empty company
(selector text, title-tag segment, or the placeholder); its title is
non-empty whenever the h1 text and title-tag text carry no surrounding
whitespace (in particular, with no h1 and no title tag at all the
placeholder `'Unknown Position'` is used), but a whitespace-only
candidate yields an empty title; the description may be empty; and
placeholder values can be returned — and cached — by a successful
`scrape`, as witnessed on `docNoSignals`. -/
theorem C9_generic_extraction_placeholders :
    (∀ (d : Doc) (url : String), (extractJobData d url).company ≠ "") ∧
    (∀ (d : Doc) (url : String),
      jsTrim d.h1First = d.h1First → jsTrim d.titleTag = d.titleTag →
      (extractJobData d url).title ≠ "") ∧
    ((scrape "Generic" true false true none
        (.ok (pageOf docNoSignals "<html><body>x</body></html>"))
        (emptySpecific "https://example.org/job") "https://example.org/job").result =
      .ok scrapedNoSignals ∧
     (scrape "Generic" true false true none
        (.ok (pageOf docNoSignals "<html><body>x</body></html>"))
        (emptySpecific "https://example.org/job")
        "https://example.org/job").cacheWrites = [scrapedNoSignals]) := by
  refine ⟨fun d url => extractJobData_company_ne_empty d url,
    fun d url h1 h2 => extractJobData_title_ne_empty d url h1 h2, by decide, by decide⟩

/-- C9 witness: the amended claim at a concrete document. -/
theorem C9_generic_extraction_placeholders_witness :
    (extractJobData docNoSignals "https://example.org/job").company ≠ "" ∧
    (extractJobData docNoSignals "https://example.org/job").title ≠ "" := by
  have h := C9_generic_extraction_placeholders
  exact ⟨h.1 docNoSignals "https://example.org/job",
    h.2.1 docNoSignals "https://example.org/job" (by decide) (by decide)⟩

/-- C5 counterexample: a fixture whose site-specific extraction leaves
the company empty while the raw HTML's JSON-LD block names
"Acme Corp".  The generic fallback (`extractJobData`) never consults
JSON-LD — `cleanDom` has already stripped every `script` tag, and the
function reads only CSS-like selectors and the title tag — so the
successful scrape returns the placeholder `'Unknown Company'`, not the
JSON-LD value. -/
theorem C5_counterexample :
    docJsonLdOnlyCompany.jsonLdCompany = some "Acme Corp" ∧
    specificEmptyCompany.company = "" ∧
    (scrape "LinkedIn" true false true none
      (.ok (pageOf docJsonLdOnlyCompany "<html><body>x</body></html>"))
      specificEmptyCompany "https://jobs.example.com/123").result =
      .ok { title := "Senior Software Engineer", company := "Unknown Company",
            description := "We are hiring a senior software engineer to build things.",
            url := "https://jobs.example.com/123", scraper := "LinkedIn" } ∧
    ("Unknown Company" : String) ≠ "Acme Corp" := by
  decide

/-- C5 (amended): when the specific extraction leaves a required field
empty, `scrape` recomputes the record with the generic `extractJobData`
(wholesale, not field-by-field), and any successful result is exactly the
cleaned, stamped generic record; `extractJobData` is insensitive to the
JSON-LD content of the document, so the company comes from its selector
list, title-tag heuristic or the `'Unknown Company'` placeholder — never
from JSON-LD. -/
theorem C5_generic_fallback (name url : String) (bypass ready : Bool)
    (cached : Option CacheEntryJs) (page : FetchedPage) (specific : ScrapedData)
    (hmiss : cacheHitEntry bypass ready cached = none)
    (hempty : specific.title = "" ∨ specific.company = "" ∨ specific.description = "") :
    (∀ v, extractJobData { page.doc with jsonLdCompany := v } url =
      extractJobData page.doc url) ∧
    (∀ rec, (scrape name true bypass ready cached (.ok page) specific url).result =
        .ok rec →
      rec = { cleanJobData (extractJobData page.doc url) with
        scraper := name, url := url }) := by
  have hif : (if specific.title = "" || specific.company = "" ||
      specific.description = "" then extractJobData page.doc url else specific) =
      extractJobData page.doc url := by
    rcases hempty with h | h | h <;> simp [h]
  refine ⟨fun v => rfl, ?_⟩
  intro rec hrec
  cases hval : validateJobData (extractJobData page.doc url) url page.html with
  | error e =>
    rw [scrape_validate_error hmiss (by rw [hif]; exact hval)] at hrec
    cases hrec
  | ok data2 =>
    obtain ⟨hdata2, _, _, _⟩ := validateJobData_ok_elim hval
    rw [scrape_validate_ok hmiss (by rw [hif]; exact hval)] at hrec
    simp only [Except.ok.injEq] at hrec
    rw [← hrec, hdata2]

/-- C5 witness: the amended claim at the JSON-LD fixture. -/
theorem C5_generic_fallback_witness :
    extractJobData { docJsonLdOnlyCompany with jsonLdCompany := none }
        "https://jobs.example.com/123" =
      extractJobData docJsonLdOnlyCompany "https://jobs.example.com/123" ∧
    ({ title := "Senior Software Engineer", company := "Unknown Company",
       description := "We are hiring a senior software engineer to build things.",
       url := "https://jobs.example.com/123", scraper := "LinkedIn" } : ScrapedData) =
      { cleanJobData (extractJobData docJsonLdOnlyCompany "https://jobs.example.com/123")
        with scraper := "LinkedIn", url := "https://jobs.example.com/123" } := by
  have h := C5_generic_fallback "LinkedIn" "https://jobs.example.com/123" false true none
    (pageOf docJsonLdOnlyCompany "<html><body>x</body></html>") specificEmptyCompany
    rfl (Or.inr (Or.inl rfl))
  exact ⟨h.1 none, h.2 _ (by decide)⟩

/-- C2: `isRateLimited` prunes timestamps whose age reaches `windowMs`,
denies without recording when the pruned count reaches
`requestsPerMinute`, and otherwise appends `now` and admits; from an
empty window, `requestsPerMinute` calls within one window are all
admitted, the next in-window call is denied, a call a full window after
every recorded timestamp is admitted again, and after any admission the
in-window count for the key is at most `requestsPerMinute`. -/
theorem C2_sliding_window :
    (∀ (rl : RateLimiter) (u : UrlModel) (now : Int),
      ((rl.requestTimestamps (getDomainKey rl.opts u)).filter
        (inWindow now rl.opts.windowMs)).length ≥ rl.opts.requestsPerMinute →
      isRateLimited rl u now = (true, rl)) ∧
    (∀ (rl : RateLimiter) (u : UrlModel) (now : Int),
      ¬ ((rl.requestTimestamps (getDomainKey rl.opts u)).filter
        (inWindow now rl.opts.windowMs)).length ≥ rl.opts.requestsPerMinute →
      isRateLimited rl u now =
        (false,
          { rl with
            requestTimestamps := fun k =>
              if k = getDomainKey rl.opts u then
                (rl.requestTimestamps (getDomainKey rl.opts u)).filter
                  (inWindow now rl.opts.windowMs) ++ [now]
              else rl.requestTimestamps k })) ∧
    (∀ (opts : RateLimitOptions) (u : UrlModel) (times : List Int),
      times.length = opts.requestsPerMinute →
      List.Pairwise (fun a b => a ≤ b ∧ b - a < opts.windowMs) times →
      (runCalls (RateLimiter.mk0 opts) (times.map (fun t => (u, t)))).1 =
        List.replicate opts.requestsPerMinute false ∧
      (∀ t' : Int, (∀ t ∈ times, t' - t < opts.windowMs) →
        (isRateLimited (runCalls (RateLimiter.mk0 opts)
          (times.map (fun t => (u, t)))).2 u t').1 = true) ∧
      (∀ t'' : Int, (∀ t ∈ times, opts.windowMs ≤ t'' - t) →
        0 < opts.requestsPerMinute →
        (isRateLimited (runCalls (RateLimiter.mk0 opts)
          (times.map (fun t => (u, t)))).2 u t'').1 = false)) ∧
    (∀ (rl rl' : RateLimiter) (u : UrlModel) (now : Int),
      isRateLimited rl u now = (false, rl') →
      ((rl'.requestTimestamps (getDomainKey rl.opts u)).filter
        (inWindow now rl.opts.windowMs)).length ≤ rl.opts.requestsPerMinute) := by
  refine ⟨fun rl u now h => isRateLimited_denied_eq h,
    fun rl u now h => isRateLimited_admitted_eq h, ?_, ?_⟩
  · intro opts u times hlen hpair
    obtain ⟨hres, hmap⟩ := runCalls_all_admitted u times (RateLimiter.mk0 opts) [] rfl
      (by simp [RateLimiter.mk0, hlen]) (by simpa using hpair)
    have hoptsF : (runCalls (RateLimiter.mk0 opts)
        (times.map (fun t => (u, t)))).2.opts = opts := runCalls_opts _ _
    have hkeyF : getDomainKey (runCalls (RateLimiter.mk0 opts)
        (times.map (fun t => (u, t)))).2.opts u = getDomainKey opts u := by rw [hoptsF]
    have hmapF : (runCalls (RateLimiter.mk0 opts)
        (times.map (fun t => (u, t)))).2.requestTimestamps
        (getDomainKey (runCalls (RateLimiter.mk0 opts)
          (times.map (fun t => (u, t)))).2.opts u) = times := by
      rw [hkeyF]
      simpa using hmap
    refine ⟨by rw [hres, hlen], ?_, ?_⟩
    · intro t' hwin
      apply (isRateLimited_fst_true_iff _ u t').mpr
      rw [hmapF, hoptsF]
      have hfe : times.filter (inWindow t' opts.windowMs) = times :=
        List.filter_eq_self.mpr (fun t ht => by simpa [inWindow] using hwin t ht)
      rw [hfe, hlen]
    · intro t'' hafter hpos
      cases hb : (isRateLimited (runCalls (RateLimiter.mk0 opts)
          (times.map (fun t => (u, t)))).2 u t'').1 with
      | false => rfl
      | true =>
        have hcond := (isRateLimited_fst_true_iff _ u t'').mp hb
        rw [hmapF, hoptsF] at hcond
        have hfe : times.filter (inWindow t'' opts.windowMs) = [] :=
          List.filter_eq_nil_iff.mpr (fun t ht => by
            simp only [inWindow]
            simpa using not_lt.mpr (hafter t ht))
        rw [hfe] at hcond
        simp at hcond
        omega
  · intro rl rl' u now heq
    by_cases hc : ((rl.requestTimestamps (getDomainKey rl.opts u)).filter
        (inWindow now rl.opts.windowMs)).length ≥ rl.opts.requestsPerMinute
    · rw [isRateLimited_denied_eq hc] at heq
      cases heq
    · rw [isRateLimited_admitted_eq hc] at heq
      have hrl' := (Prod.mk.injEq _ _ _ _).mp heq
      rw [← hrl'.2]
      simp only [if_pos rfl]
      calc ((((rl.requestTimestamps (getDomainKey rl.opts u)).filter
            (inWindow now rl.opts.windowMs)) ++ [now]).filter
            (inWindow now rl.opts.windowMs)).length
          ≤ (((rl.requestTimestamps (getDomainKey rl.opts u)).filter
            (inWindow now rl.opts.windowMs)) ++ [now]).length :=
            List.length_filter_le _ _
        _ ≤ rl.opts.requestsPerMinute := by
            rw [List.length_append, List.length_singleton]
            omega

/-- C2 witness: the test-suite scenario — limit 3, window 500 ms: three
calls at 0/100/200 ms are admitted, a fourth at 300 ms is denied, and a
call at 701 ms is admitted again. -/
theorem C2_sliding_window_witness :
    (runCalls (RateLimiter.mk0 ⟨3, 500, true⟩)
      ([0, 100, 200].map (fun t => (⟨some "example.com"⟩, t)))).1 =
      [false, false, false] ∧
    (isRateLimited (runCalls (RateLimiter.mk0 ⟨3, 500, true⟩)
      ([0, 100, 200].map (fun t => (⟨some "example.com"⟩, t)))).2
      ⟨some "example.com"⟩ 300).1 = true ∧
    (isRateLimited (runCalls (RateLimiter.mk0 ⟨3, 500, true⟩)
      ([0, 100, 200].map (fun t => (⟨some "example.com"⟩, t)))).2
      ⟨some "example.com"⟩ 701).1 = false := by
  obtain ⟨-, -, hscen, -⟩ := C2_sliding_window
  obtain ⟨hres, hden, hafter⟩ := hscen ⟨3, 500, true⟩ ⟨some "example.com"⟩
    [0, 100, 200] (by decide) (by decide)
  exact ⟨by rw [hres]; decide, hden 300 (by decide), hafter 701 (by decide) (by decide)⟩

/-- C7: `getTimeUntilReset` is 0 with no history or under the limit, and
otherwise the oldest stored timestamp plus `windowMs` minus `now`,
floored at 0; on a denied `waitForRateLimit` the single sleep is exactly
`getTimeUntilReset` with the state untouched (no re-check loop); and the
sleep never exceeds one window width when the recorded timestamps lie in
the past. -/
theorem C7_time_until_reset :
    (∀ (rl : RateLimiter) (u : UrlModel) (now : Int),
      rl.requestTimestamps (getDomainKey rl.opts u) = [] ∨
        (rl.requestTimestamps (getDomainKey rl.opts u)).length <
          rl.opts.requestsPerMinute →
      getTimeUntilReset rl u now = 0) ∧
    (∀ (rl : RateLimiter) (u : UrlModel) (now : Int),
      rl.requestTimestamps (getDomainKey rl.opts u) ≠ [] →
      ¬ (rl.requestTimestamps (getDomainKey rl.opts u)).length <
        rl.opts.requestsPerMinute →
      getTimeUntilReset rl u now =
        max 0 (listMinD (rl.requestTimestamps (getDomainKey rl.opts u)) 0 +
          rl.opts.windowMs - now)) ∧
    (∀ (rl : RateLimiter) (u : UrlModel) (now : Int),
      (isRateLimited rl u now).1 = true →
      waitForRateLimit rl u now = (getTimeUntilReset rl u now, rl)) ∧
    (∀ (rl : RateLimiter) (u : UrlModel) (now : Int),
      TimestampsLe rl now → 0 ≤ rl.opts.windowMs →
      (waitForRateLimit rl u now).1 ≤ rl.opts.windowMs) :=
  ⟨fun _ _ _ h => getTimeUntilReset_zero h,
   fun _ _ _ h1 h2 => getTimeUntilReset_formula h1 h2,
   fun _ _ _ h => waitForRateLimit_denied h,
   fun _ _ _ hts hw => waitForRateLimit_wait_le hts hw⟩

/-- C7 witness: a limiter with limit 1 and window 300 ms that recorded a
request at time 0: at time 100 the reset time is 200 ms, a denied wait
sleeps exactly that long and leaves the state untouched, and the sleep is
below one window width. -/
theorem C7_time_until_reset_witness :
    getTimeUntilReset
      { opts := ⟨1, 300, true⟩,
        requestTimestamps := fun k => if k = "example.com" then [(0 : Int)] else [] }
      ⟨some "example.com"⟩ 100 = 200 ∧
    waitForRateLimit
      { opts := ⟨1, 300, true⟩,
        requestTimestamps := fun k => if k = "example.com" then [(0 : Int)] else [] }
      ⟨some "example.com"⟩ 100 =
      (200,
        { opts := ⟨1, 300, true⟩,
          requestTimestamps := fun k => if k = "example.com" then [(0 : Int)] else [] }) ∧
    (waitForRateLimit
      { opts := ⟨1, 300, true⟩,
        requestTimestamps := fun k => if k = "example.com" then [(0 : Int)] else [] }
      ⟨some "example.com"⟩ 100).1 ≤ 300 := by
  obtain ⟨hzero, hformula, hdenied, hle⟩ := C7_time_until_reset
  have h1 : getTimeUntilReset
      { opts := ⟨1, 300, true⟩,
        requestTimestamps := fun k => if k = "example.com" then [(0 : Int)] else [] }
      ⟨some "example.com"⟩ 100 = 200 := by
    rw [hformula _ _ 100 (by decide) (by decide)]
    decide
  have h2 := hdenied
    { opts := ⟨1, 300, true⟩,
      requestTimestamps := fun k => if k = "example.com" then [(0 : Int)] else [] }
    ⟨some "example.com"⟩ 100 (by decide)
  refine ⟨h1, by rw [h2, h1], ?_⟩
  apply hle
  · intro k t ht
    by_cases hk : k = "example.com"
    · simp only [hk, if_pos rfl] at ht
      rcases List.mem_singleton.mp ht with rfl
      norm_num
    · simp only [if_neg hk] at ht
      cases ht
  · decide

/-- C8: rate-limit state is partitioned by key — a call touches only its
own key; admission depends only on the key's stored list; hence any
sequence of calls whose keys differ from B's key leaves B's window and
admission verdict unchanged.  With `perDomain` the key is the hostname
(so distinct domains are isolated), without it every URL maps to the
single key `'global'`. -/
theorem C8_per_domain_partition :
    (∀ (rl : RateLimiter) (u : UrlModel) (now : Int) (k : String),
      k ≠ getDomainKey rl.opts u →
      (isRateLimited rl u now).2.requestTimestamps k = rl.requestTimestamps k) ∧
    (∀ (rl1 rl2 : RateLimiter) (u : UrlModel) (now : Int),
      rl1.opts = rl2.opts →
      rl1.requestTimestamps (getDomainKey rl1.opts u) =
        rl2.requestTimestamps (getDomainKey rl2.opts u) →
      (isRateLimited rl1 u now).1 = (isRateLimited rl2 u now).1) ∧
    (∀ (rl : RateLimiter) (calls : List (UrlModel × Int)) (uB : UrlModel) (nowB : Int),
      (∀ c ∈ calls, getDomainKey rl.opts c.1 ≠ getDomainKey rl.opts uB) →
      (runCalls rl calls).2.requestTimestamps (getDomainKey rl.opts uB) =
        rl.requestTimestamps (getDomainKey rl.opts uB) ∧
      (isRateLimited (runCalls rl calls).2 uB nowB).1 =
        (isRateLimited rl uB nowB).1) ∧
    (∀ (opts : RateLimitOptions) (h : String), opts.perDomain = true →
      getDomainKey opts ⟨some h⟩ = h) ∧
    (∀ (opts : RateLimitOptions) (u : UrlModel), opts.perDomain = false →
      getDomainKey opts u = "global") := by
  refine ⟨fun rl u now k hk => isRateLimited_frame hk, ?_, ?_, ?_, ?_⟩
  · intro rl1 rl2 u now hopts hts
    exact isRateLimited_key_determined hopts hts
  · intro rl calls uB nowB hcalls
    have hframe := runCalls_frame hcalls
    have hopts := runCalls_opts rl calls
    refine ⟨hframe, ?_⟩
    apply isRateLimited_key_determined hopts
    rw [show getDomainKey (runCalls rl calls).2.opts uB = getDomainKey rl.opts uB from
      by rw [hopts]]
    exact hframe
  · intro opts h hp
    simp [getDomainKey, hp]
  · intro opts u hp
    cases hu : u.hostname with
    | some h => simp [getDomainKey, hu, hp]
    | none => simp [getDomainKey, hu]

/-- C8 witness: exhausting domain a.com (limit 2) leaves b.com's window
empty and its admission verdict unchanged; a no-domain options record
maps every URL to `'global'`. -/
theorem C8_per_domain_partition_witness :
    (runCalls (RateLimiter.mk0 ⟨2, 1000, true⟩)
      [(⟨some "a.com"⟩, 0), (⟨some "a.com"⟩, 1), (⟨some "a.com"⟩, 2)]).2.requestTimestamps
      (getDomainKey ⟨2, 1000, true⟩ ⟨some "b.com"⟩) =
      (RateLimiter.mk0 ⟨2, 1000, true⟩).requestTimestamps
        (getDomainKey ⟨2, 1000, true⟩ ⟨some "b.com"⟩) ∧
    (isRateLimited (runCalls (RateLimiter.mk0 ⟨2, 1000, true⟩)
      [(⟨some "a.com"⟩, 0), (⟨some "a.com"⟩, 1), (⟨some "a.com"⟩, 2)]).2
      ⟨some "b.com"⟩ 3).1 =
      (isRateLimited (RateLimiter.mk0 ⟨2, 1000, true⟩) ⟨some "b.com"⟩ 3).1 ∧
    getDomainKey ⟨2, 1000, false⟩ ⟨some "a.com"⟩ = "global" := by
  obtain ⟨-, -, hseq, -, hglobal⟩ := C8_per_domain_partition
  obtain ⟨h1, h2⟩ := hseq (RateLimiter.mk0 ⟨2, 1000, true⟩)
    [(⟨some "a.com"⟩, 0), (⟨some "a.com"⟩, 1), (⟨some "a.com"⟩, 2)]
    ⟨some "b.com"⟩ 3 (by decide)
  exact ⟨h1, h2, hglobal ⟨2, 1000, false⟩ ⟨some "a.com"⟩ rfl⟩

/-- C10: a denied `isRateLimited` call is observationally pure — the
returned state is exactly the input state (the pruned list is not written
back, no timestamp appended); timestamps are only appended on admission,
and the bound "every stored per-key list holds at most
`requestsPerMinute` entries" is preserved by `isRateLimited` and
`waitForRateLimit` and holds for the fresh limiter. -/
theorem C10_denied_is_pure :
    (∀ (rl : RateLimiter) (u : UrlModel) (now : Int),
      (isRateLimited rl u now).1 = true → (isRateLimited rl u now).2 = rl) ∧
    (∀ (rl : RateLimiter) (u : UrlModel) (now : Int),
      StoreBounded rl → StoreBounded (isRateLimited rl u now).2) ∧
    (∀ (rl : RateLimiter) (u : UrlModel) (now : Int),
      StoreBounded rl → StoreBounded (waitForRateLimit rl u now).2) ∧
    (∀ opts : RateLimitOptions, StoreBounded (RateLimiter.mk0 opts)) := by
  refine ⟨?_, fun _ _ _ h => isRateLimited_bound h,
    fun _ _ _ h => waitForRateLimit_bound h, fun opts k => Nat.zero_le _⟩
  intro rl u now h
  have hcond := (isRateLimited_fst_true_iff rl u now).mp h
  rw [isRateLimited_denied_eq hcond]

/-- C10 witness: a saturated limiter (limit 1, one stored timestamp)
denies at time 10 and is returned unchanged. -/
theorem C10_denied_is_pure_witness :
    (isRateLimited
      { opts := ⟨1, 1000, true⟩,
        requestTimestamps := fun k => if k = "example.com" then [(0 : Int)] else [] }
      ⟨some "example.com"⟩ 10).1 = true ∧
    (isRateLimited
      { opts := ⟨1, 1000, true⟩,
        requestTimestamps := fun k => if k = "example.com" then [(0 : Int)] else [] }
      ⟨some "example.com"⟩ 10).2 =
      { opts := ⟨1, 1000, true⟩,
        requestTimestamps := fun k => if k = "example.com" then [(0 : Int)] else [] } := by
  obtain ⟨hpure, -, -, -⟩ := C10_denied_is_pure
  exact ⟨by decide, hpure _ _ 10 (by decide)⟩

/-- C4: `fetchWithRetry` makes at most `retries` attempts (default 3,
with default base delay 1000 ms); it returns the response of the first
successful attempt immediately (attempt `k+1` succeeds after `k`
failures: `k+1` calls, no further sleeps), sleeping `retryDelay * n`
before attempt `n` (entry `i` of the schedule, the sleep before attempt
`i + 2`, equals `retryDelay * (i + 2)`); and when all `retries` attempts
fail it raises the structured `FETCH_FAILED` error carrying the message,
the last attempt's technical details, and a suggestion. -/
theorem C4_fetchWithRetry (oracle : Nat → AttemptOutcome) (retries : Nat) (d : Int) :
    (∀ (k s : Nat), k < retries →
      (∀ j, j < k → (attemptFailureMsg (oracle j)).isSome) →
      oracle k = .response s → responseOk s = true →
      fetchWithRetry oracle retries d = ⟨.ok s, backoffDelays d 0 k, k + 1⟩) ∧
    (0 < retries →
      (∀ j, j < retries → (attemptFailureMsg (oracle j)).isSome) →
      fetchWithRetry oracle retries d =
        ⟨.error (fetchFailedError retries (attemptFailureMsg (oracle (retries - 1)))),
         backoffDelays d 0 (retries - 1), retries⟩) ∧
    (∀ k, backoffDelays d 0 k =
      (List.range k).map (fun i => d * ((i + 2 : Nat) : Int))) ∧
    (∀ x : Option String, (fetchFailedError retries x).code = "FETCH_FAILED" ∧
      (fetchFailedError retries x).message =
        "Failed to fetch the job posting after " ++ toString retries ++ " attempts" ∧
      (fetchFailedError retries x).technicalDetails = x.getD "Unknown error" ∧
      (fetchFailedError retries x).suggestion =
        "The site may be blocking automated requests. Try accessing the page directly in your browser.") ∧
    (DEFAULT_RETRIES = 3 ∧ DEFAULT_RETRY_DELAY = 1000) := by
  refine ⟨?_, ?_, ?_, fun x => ⟨rfl, rfl, rfl, rfl⟩, rfl, rfl⟩
  · intro k s hk hfail ho hok
    unfold fetchWithRetry
    rw [fetchLoop_success oracle retries d k retries 0 [] none s hk (by omega)
      (fun j hj => by rw [Nat.zero_add]; exact hfail j hj)
      (by rw [Nat.zero_add]; exact ho) hok]
    rw [List.nil_append, Nat.zero_add]
  · intro hpos hfail
    unfold fetchWithRetry
    rw [fetchLoop_fail_all oracle retries d retries 0 [] none (by omega) hpos
      (fun j hj => by rw [Nat.zero_add]; exact hfail j hj)]
    rw [List.nil_append]
  · intro k
    unfold backoffDelays
    apply List.map_congr_left
    intro i _
    rw [Nat.zero_add]

/-- C4 witness: with 3 attempts and base 1000 ms — a network error
followed by a 200 yields the response after one 2000 ms sleep and two
attempts; three 503s exhaust the budget with sleeps 2000 and 3000 ms and
the structured FETCH_FAILED error. -/
theorem C4_fetchWithRetry_witness :
    fetchWithRetry (fun j => if j = 0 then .netError "ECONNRESET" else .response 200)
      3 1000 = ⟨.ok 200, [2000], 2⟩ ∧
    fetchWithRetry (fun _ => .response 503) 3 1000 =
      ⟨.error
        { code := "FETCH_FAILED",
          message := "Failed to fetch the job posting after 3 attempts",
          technicalDetails := "Failed to fetch page (Status: 503)",
          suggestion := "The site may be blocking automated requests. Try accessing the page directly in your browser." },
       [2000, 3000], 3⟩ := by
  have h1 := (C4_fetchWithRetry
    (fun j => if j = 0 then .netError "ECONNRESET" else .response 200) 3 1000).1 1 200
    (by decide)
    (fun j hj => by
      have hj0 : j = 0 := by omega
      subst hj0
      decide)
    (by decide) (by decide)
  have h2 := (C4_fetchWithRetry (fun _ => .response 503) 3 1000).2.1 (by decide)
    (fun j _ => by decide)
  exact ⟨by rw [h1]; decide, by rw [h2]; decide⟩

/-- C6: when the selected site-specific scraper's `scrape` throws and it
is not the generic scraper, the orchestrator invokes the generic scraper
exactly once (the invocation trace is `[specific, Generic]`); a
successful generic retry returns its cleaned record; a failed one
surfaces the two error messages concatenated (with the
`"Generic scraper also failed: "` connective); a specific success is
returned cleaned with no retry; and a failure of the generic scraper
itself is rethrown without any retry. -/
theorem C6_generic_retry :
    (∀ (name e : String) (genericOutcome : Except String ScrapedData),
      (scrapeJobPosting true false name false (.error e) genericOutcome).2 =
        [name, "Generic"]) ∧
    (∀ (name e : String) (jd : ScrapedData),
      scrapeJobPosting true false name false (.error e) (.ok jd) =
        (.ok (cleanJobData jd), [name, "Generic"])) ∧
    (∀ (name e g : String),
      scrapeJobPosting true false name false (.error e) (.error g) =
        (.error (e ++ "\n\nGeneric scraper also failed: " ++ g), [name, "Generic"])) ∧
    (∀ (name : String) (jd : ScrapedData) (go : Except String ScrapedData),
      scrapeJobPosting true false name false (.ok jd) go =
        (.ok (cleanJobData jd), [name])) ∧
    (∀ (name e : String) (go : Except String ScrapedData),
      scrapeJobPosting true false name true (.error e) go = (.error e, [name])) := by
  refine ⟨?_, ?_, ?_, ?_, ?_⟩
  · intro name e go
    cases go <;> simp [scrapeJobPosting]
  · intro name e jd
    simp [scrapeJobPosting]
  · intro name e g
    simp [scrapeJobPosting]
  · intro name jd go
    simp [scrapeJobPosting]
  · intro name e go
    simp [scrapeJobPosting]

/-- C3: `get_scraper_cache` computes `is_expired` as
`expires_at < now()` on every returned row; an upsert followed by a get
before the TTL elapses returns the stored content un-expired and then
increments the stored hit counter by 1 (from 0 to 1 for a fresh write);
and upserting the same url twice leaves exactly one row for it, carrying
the latest content and expiry with the hit counter reset to 0, while
rows for other urls are untouched. -/
theorem C3_cache_roundtrip (db : List CacheRow) (hwf : UrlsUnique db)
    (now now2 : Int) (id1 id2 : Nat) (url X X2 sn sn2 : String) (sc sc2 : Int)
    (hd hd2 : String) (ttl ttl2 : Int) (et lm et2 lm2 : Option String) :
    (∀ (db' : List CacheRow) (now' : Int) (u' : String) (b : Bool),
      ∀ rr ∈ (get_scraper_cache db' now' u' b).1,
        rr.is_expired = decide (rr.row.expires_at < now')) ∧
    (¬ (now + hoursToMs ttl < now2) →
      ∃ r, rowsFor (upsert_scraper_cache db now id1 url X sn sc hd ttl et lm).1 url =
          [r] ∧
        r.content = X ∧ r.cache_hit_count = 0 ∧
        (get_scraper_cache (upsert_scraper_cache db now id1 url X sn sc hd ttl et
          lm).1 now2 url true).1 = [⟨r, false⟩] ∧
        rowsFor (get_scraper_cache (upsert_scraper_cache db now id1 url X sn sc hd
          ttl et lm).1 now2 url true).2 url =
          [{ r with cache_hit_count := r.cache_hit_count + 1, updated_at := now2 }]) ∧
    ((rowsFor (upsert_scraper_cache
        (upsert_scraper_cache db now id1 url X sn sc hd ttl et lm).1
        now2 id2 url X2 sn2 sc2 hd2 ttl2 et2 lm2).1 url).length = 1 ∧
      (∃ r2, rowsFor (upsert_scraper_cache
          (upsert_scraper_cache db now id1 url X sn sc hd ttl et lm).1
          now2 id2 url X2 sn2 sc2 hd2 ttl2 et2 lm2).1 url = [r2] ∧
        r2.content = X2 ∧ r2.expires_at = now2 + hoursToMs ttl2 ∧
        r2.cache_hit_count = 0) ∧
      (∀ u', u' ≠ url →
        rowsFor (upsert_scraper_cache
          (upsert_scraper_cache db now id1 url X sn sc hd ttl et lm).1
          now2 id2 url X2 sn2 sc2 hd2 ttl2 et2 lm2).1 u' = rowsFor db u')) := by
  refine ⟨?_, ?_, ?_⟩
  · intro db' now' u' b rr hrr
    rw [get_res_eq] at hrr
    obtain ⟨r0, _, hr0⟩ := List.mem_map.mp hrr
    rw [← hr0]
  · intro hfresh
    obtain ⟨r, hr, hru, hcontent, hsn, hexp, hhit, hupd⟩ :=
      upsert_rowsFor_self db now id1 url X sn sc hd ttl et lm hwf
    have hmem : r ∈ rowsFor (upsert_scraper_cache db now id1 url X sn sc hd ttl et
        lm).1 url := by rw [hr]; simp
    obtain ⟨hrdb, hrurl⟩ := List.mem_filter.mp hmem
    have hany : ((upsert_scraper_cache db now id1 url X sn sc hd ttl et lm).1.any
        (fun r => r.url = url)) = true := List.any_eq_true.mpr ⟨r, hrdb, hrurl⟩
    refine ⟨r, hr, hcontent, hhit, ?_, ?_⟩
    · rw [get_res_eq, hr]
      simp only [List.map_cons, List.map_nil]
      have hdec : decide (r.expires_at < now2) = false := by
        rw [hexp]
        exact decide_eq_false hfresh
      rw [hdec]
    · rw [get_db_self hany, hr]
      simp
  · have hwf1 : UrlsUnique (upsert_scraper_cache db now id1 url X sn sc hd ttl et
        lm).1 := upsert_wf db now id1 url X sn sc hd ttl et lm hwf
    obtain ⟨r2, hr2, hr2u, hc2, hsn2, hexp2, hhit2, hupd2⟩ :=
      upsert_rowsFor_self (upsert_scraper_cache db now id1 url X sn sc hd ttl et
        lm).1 now2 id2 url X2 sn2 sc2 hd2 ttl2 et2 lm2 hwf1
    refine ⟨by rw [hr2]; rfl, ⟨r2, hr2, hc2, hexp2, hhit2⟩, ?_⟩
    intro u' hne
    rw [upsert_rowsFor_other _ now2 id2 url X2 sn2 sc2 hd2 ttl2 et2 lm2 hne,
      upsert_rowsFor_other db now id1 url X sn sc hd ttl et lm hne]

/-- C3 witness: the round trip on an empty table at concrete times. -/
theorem C3_cache_roundtrip_witness :
    rowsFor (upsert_scraper_cache [] 0 1 "https://j.example/1" "\x7b\x7d" "Generic"
      200 "\x7b\x7d" 24 none none).1 "https://j.example/1" = [cacheRowEx] ∧
    (get_scraper_cache (upsert_scraper_cache [] 0 1 "https://j.example/1" "\x7b\x7d"
      "Generic" 200 "\x7b\x7d" 24 none none).1 1000 "https://j.example/1" true).1 =
      [⟨cacheRowEx, false⟩] ∧
    rowsFor (get_scraper_cache (upsert_scraper_cache [] 0 1 "https://j.example/1"
      "\x7b\x7d" "Generic" 200 "\x7b\x7d" 24 none none).1 1000 "https://j.example/1"
      true).2 "https://j.example/1" =
      [{ cacheRowEx with cache_hit_count := 1, updated_at := 1000 }] ∧
    (rowsFor (upsert_scraper_cache (upsert_scraper_cache [] 0 1 "https://j.example/1"
      "\x7b\x7d" "Generic" 200 "\x7b\x7d" 24 none none).1 5000 2 "https://j.example/1"
      "\x7b\x7d" "Generic" 200 "\x7b\x7d" 24 none none).1 "https://j.example/1").length
      = 1 := by
  have h := C3_cache_roundtrip [] (fun u => by simp [rowsFor]) 0 1000 1 2
    "https://j.example/1" "\x7b\x7d" "\x7b\x7d" "Generic" "Generic" 200 200
    "\x7b\x7d" "\x7b\x7d" 24 24 none none none none
  obtain ⟨-, hb, hc⟩ := h
  obtain ⟨r, hr, -, -, hres, hdb2⟩ := hb (by decide)
  have hcomp : rowsFor (upsert_scraper_cache [] 0 1 "https://j.example/1" "\x7b\x7d"
      "Generic" 200 "\x7b\x7d" 24 none none).1 "https://j.example/1" = [cacheRowEx] :=
    by decide
  have hrr : r = cacheRowEx := by
    have h2 := hr.symm.trans hcomp
    exact (List.cons_eq_cons.mp h2).1
  subst hrr
  have h3 := C3_cache_roundtrip [] (fun u => by simp [rowsFor]) 0 5000 1 2
    "https://j.example/1" "\x7b\x7d" "\x7b\x7d" "Generic" "Generic" 200 200
    "\x7b\x7d" "\x7b\x7d" 24 24 none none none none
  exact ⟨hcomp, hres, hdb2, h3.2.2.1⟩

end Scraper
